import Mathlib

/-!
Verification of the loom-punchcards core pipeline against its specification.

The Go sources are shallowly embedded: Go `int` is modelled as `Int`
(no overflow is reachable for the quantities involved), Go slices as
`List`, Go `float64` as `ℚ` (all float computations in scope are exact
decimal/ratio arithmetic; the spec's own formulas are exact), Go strings
as `List Char` (all relevant strings are ASCII, where byte indexing and
rune indexing coincide), and fallible functions as `Except String`.
Out-of-bounds slice indexing (a Go panic) is modelled by `List.getD`
with a default; every claim's hypotheses keep the code inside bounds,
so the totalized branches are unreachable in the theorems below.
-/

deriving instance DecidableEq for Except

namespace Loom

/-- Go string, modelled as its list of characters. -/
abbrev GoStr := List Char

/-- `CardWidth` constant from generator.go: 26 columns per card. -/
def CardWidth : Nat := 26

/-- `CardHeight` constant from generator.go: 8 rows per card. -/
def CardHeight : Nat := 8

/-- `Card` struct from generator.go: a single Jacquard punchcard. -/
structure Card where
  number : Int
  matrix : List (List Int)
  width : Int
  height : Int
deriving DecidableEq, Repr

instance : Inhabited Card := ⟨⟨0, [], 0, 0⟩⟩

/-- Inner loop of `Card.Validate` (generator.go:160-164): checks every
cell of one row is 0 or 1, reporting the first offending column. -/
def validateCells (y : Nat) : Nat → List Int → Except String Unit
  | _, [] => .ok ()
  | x, v :: vs =>
    if v ≠ 0 ∧ v ≠ 1 then
      .error ("invalid value at (" ++ toString x ++ "," ++ toString y ++ "): "
        ++ toString v ++ " (must be 0 or 1)")
    else validateCells y (x + 1) vs

/-- Row loop of `Card.Validate` (generator.go:154-165): checks each row's
width, then its cells, in order. -/
def validateRows (w : Int) : Nat → List (List Int) → Except String Unit
  | _, [] => .ok ()
  | y, row :: rows =>
    if (row.length : Int) ≠ w then
      .error ("row " ++ toString y ++ " width (" ++ toString row.length
        ++ ") does not match card width (" ++ toString w ++ ")")
    else
      match validateCells y 0 row with
      | .error e => .error e
      | .ok _ => validateRows w (y + 1) rows

/-- `Card.Validate` from generator.go:145-168. -/
def Card.validate (c : Card) : Except String Unit :=
  if c.width ≤ 0 ∨ c.height ≤ 0 then
    .error ("invalid card dimensions: " ++ toString c.width ++ "x" ++ toString c.height)
  else if (c.matrix.length : Int) ≠ c.height then
    .error ("matrix height (" ++ toString c.matrix.length
      ++ ") does not match card height (" ++ toString c.height ++ ")")
  else validateRows c.width 0 c.matrix

theorem validateCells_ok_iff (vs : List Int) (y x : Nat) :
    validateCells y x vs = .ok () ↔ ∀ v ∈ vs, v = 0 ∨ v = 1 := by
  induction vs generalizing x with
  | nil => simp [validateCells]
  | cons v vs ih =>
    by_cases h : v ≠ 0 ∧ v ≠ 1
    · constructor
      · intro hh
        simp only [validateCells] at hh
        rw [if_pos h] at hh
        exact absurd hh (by simp)
      · intro hh
        rcases hh v (by simp) with h0 | h1
        · exact absurd h0 h.1
        · exact absurd h1 h.2
    · have hv : v = 0 ∨ v = 1 := by
        rcases not_and_or.mp h with h0 | h1
        · exact Or.inl (not_not.mp h0)
        · exact Or.inr (not_not.mp h1)
      have h1 : validateCells y x (v :: vs) = validateCells y (x + 1) vs := by
        simp only [validateCells]
        rw [if_neg h]
      rw [h1, ih]
      constructor
      · intro hh u hu
        rcases List.mem_cons.mp hu with rfl | hu
        · exact hv
        · exact hh u hu
      · intro hh u hu
        exact hh u (List.mem_cons.mpr (Or.inr hu))

theorem validateRows_ok_iff (rows : List (List Int)) (w : Int) (y : Nat) :
    validateRows w y rows = .ok () ↔
      ∀ row ∈ rows, (row.length : Int) = w ∧ ∀ v ∈ row, v = 0 ∨ v = 1 := by
  induction rows generalizing y with
  | nil => simp [validateRows]
  | cons row rows ih =>
    by_cases hw : (row.length : Int) = w
    · have h1 : validateRows w y (row :: rows) =
          (match validateCells y 0 row with
           | .error e => .error e
           | .ok _ => validateRows w (y + 1) rows) := by
        simp only [validateRows]
        rw [if_neg (by simp [hw])]
      rcases hcells : validateCells y 0 row with e | ⟨⟩ <;> rw [hcells] at h1
      · rw [h1]
        have hnc : ¬ (∀ v ∈ row, v = 0 ∨ v = 1) := by
          intro hall
          have h2 := (validateCells_ok_iff row y 0).mpr hall
          rw [hcells] at h2
          exact absurd h2 (by simp)
        constructor
        · intro h; exact absurd h (by simp)
        · intro h; exact absurd (h row (by simp)).2 hnc
      · rw [h1, ih]
        have hc := (validateCells_ok_iff row y 0).mp hcells
        constructor
        · intro h r hr
          rcases List.mem_cons.mp hr with rfl | hr
          · exact ⟨hw, hc⟩
          · exact h r hr
        · intro h r hr
          exact h r (List.mem_cons.mpr (Or.inr hr))
    · constructor
      · intro h
        simp only [validateRows] at h
        rw [if_pos hw] at h
        exact absurd h (by simp)
      · intro h
        exact absurd (h row (by simp)).1 hw

/-- Characterization of `Card.Validate` success, shared by several claims:
it succeeds exactly when dimensions are positive, the matrix has `Height`
rows of length `Width`, and every cell is 0 or 1. -/
theorem validate_ok_iff (c : Card) :
    c.validate = .ok () ↔
      0 < c.width ∧ 0 < c.height ∧ (c.matrix.length : Int) = c.height ∧
      (∀ row ∈ c.matrix, (row.length : Int) = c.width) ∧
      (∀ row ∈ c.matrix, ∀ v ∈ row, v = 0 ∨ v = 1) := by
  unfold Card.validate
  by_cases hd : c.width ≤ 0 ∨ c.height ≤ 0
  · rw [if_pos hd]
    constructor
    · intro h; exact absurd h (by simp)
    · intro h
      rcases hd with hw | hh
      · exact absurd h.1 (by omega)
      · exact absurd h.2.1 (by omega)
  · push_neg at hd
    rw [if_neg (by push_neg; exact hd)]
    by_cases hm : (c.matrix.length : Int) = c.height
    · rw [if_neg (by simp [hm])]
      rw [validateRows_ok_iff]
      constructor
      · intro h
        exact ⟨by omega, by omega, hm, fun r hr => (h r hr).1, fun r hr => (h r hr).2⟩
      · intro h r hr
        exact ⟨h.2.2.2.1 r hr, h.2.2.2.2 r hr⟩
    · rw [if_pos (by simp [hm])]
      constructor
      · intro h; exact absurd h (by simp)
      · intro h; exact absurd h.2.2.1 hm

/-- `Generator.Generate` from generator.go:41-87: reshape each 208-wide
grid row into one 26×8 card, numbering cards from 1. -/
def generate (matrix : List (List Int)) : Except String (List Card) :=
  if matrix.length = 0 then .error "empty matrix provided"
  else
    if (matrix.headD []).length ≠ CardWidth * CardHeight then
      .error ("image width (" ++ toString (matrix.headD []).length
        ++ ") does not match expected width (208 = 26 x 8)")
    else
      .ok ((List.range matrix.length).map (fun (cardNum : Nat) =>
        { number := (cardNum : Int) + 1
          matrix := (List.range CardHeight).map (fun row =>
            (List.range CardWidth).map (fun col =>
              (matrix.getD cardNum []).getD (row * CardWidth + col) 0))
          width := (CardWidth : Int)
          height := (CardHeight : Int) }))

/-- `Card.CountHoles` from generator.go:99-109: nested loop over the card's
declared dimensions counting cells equal to 1. -/
def Card.countHoles (c : Card) : Nat :=
  (List.range c.height.toNat).foldl (fun acc y =>
    (List.range c.width.toNat).foldl (fun acc2 x =>
      if (c.matrix.getD y []).getD x 0 = 1 then acc2 + 1 else acc2) acc) 0

/-- Mathematical count of 1-cells of a matrix (the spec's "count of 1 cells"). -/
def countOnes (m : List (List Int)) : Nat :=
  (m.map (fun r => r.countP (fun v => v = 1))).sum

theorem foldl_count_row (row : List Int) (acc : Nat) :
    (List.range row.length).foldl (fun a x => if row.getD x 0 = 1 then a + 1 else a) acc
      = acc + row.countP (fun v => decide (v = 1)) := by
  induction row generalizing acc with
  | nil => simp
  | cons v vs ih =>
    rw [show (v :: vs).length = vs.length + 1 from rfl, List.range_succ_eq_map]
    simp only [List.foldl_cons, List.foldl_map]
    have hshift : ∀ (a : Nat),
        (List.range vs.length).foldl
          (fun a x => if (v :: vs).getD (Nat.succ x) 0 = 1 then a + 1 else a) a
        = (List.range vs.length).foldl
          (fun a x => if vs.getD x 0 = 1 then a + 1 else a) a := by
      intro a
      rfl
    rw [hshift, ih]
    by_cases hv : v = 1
    · simp [hv, List.countP_cons]
      omega
    · simp [List.getD, hv, List.countP_cons]

theorem foldl_count_matrix (m : List (List Int)) (w : Nat)
    (hw : ∀ row ∈ m, row.length = w) (acc : Nat) :
    (List.range m.length).foldl (fun a y =>
      (List.range w).foldl (fun a2 x =>
        if (m.getD y []).getD x 0 = 1 then a2 + 1 else a2) a) acc
      = acc + countOnes m := by
  induction m generalizing acc with
  | nil => simp [countOnes]
  | cons r rs ih =>
    rw [show (r :: rs).length = rs.length + 1 from rfl, List.range_succ_eq_map]
    simp only [List.foldl_cons, List.foldl_map]
    have h0 : (List.range w).foldl (fun a2 x =>
        if ((r :: rs).getD 0 []).getD x 0 = 1 then a2 + 1 else a2) acc
        = acc + r.countP (fun v => decide (v = 1)) := by
      have hlen : r.length = w := hw r (by simp)
      rw [← hlen]
      have hgd : ∀ (a : Nat), (List.range r.length).foldl (fun a2 x =>
          if ((r :: rs).getD 0 []).getD x 0 = 1 then a2 + 1 else a2) a
          = (List.range r.length).foldl (fun a2 x =>
          if r.getD x 0 = 1 then a2 + 1 else a2) a := by
        intro a
        rfl
      rw [hgd]
      exact foldl_count_row r acc
    have hshift : ∀ (a : Nat),
        (List.range rs.length).foldl (fun a y =>
          (List.range w).foldl (fun a2 x =>
            if ((r :: rs).getD (Nat.succ y) []).getD x 0 = 1 then a2 + 1 else a2) a) a
        = (List.range rs.length).foldl (fun a y =>
          (List.range w).foldl (fun a2 x =>
            if (rs.getD y []).getD x 0 = 1 then a2 + 1 else a2) a) a := by
      intro a
      rfl
    rw [h0, hshift, ih (fun row hr => hw row (List.mem_cons.mpr (Or.inr hr))) _]
    simp [countOnes]
    omega

/-- For a card whose matrix has the declared shape, the dimension-driven
`CountHoles` loop counts exactly the 1-cells of the matrix. -/
theorem countHoles_eq_countOnes (c : Card) (hh : c.matrix.length = c.height.toNat)
    (hw : ∀ row ∈ c.matrix, row.length = c.width.toNat) :
    c.countHoles = countOnes c.matrix := by
  unfold Card.countHoles
  rw [← hh]
  simpa using foldl_count_matrix c.matrix c.width.toNat hw 0

/-- Helper: indexed getD on a mapped range. -/
theorem map_range_getD {α : Type} (n : Nat) (f : Nat → α) (i : Nat) (d : α) (h : i < n) :
    ((List.range n).map f).getD i d = f i := by
  rw [List.getD_eq_getElem _ _ (by simpa using h)]
  rw [List.getElem_map, List.getElem_range]

theorem sum_map_const {α : Type} (l : List α) (k : Nat) :
    (l.map (fun _ => k)).sum = l.length * k := by
  induction l with
  | nil => simp
  | cons a l ih => simp [ih]; ring

theorem countOnes_le (m : List (List Int)) (w : Nat) (hw : ∀ row ∈ m, row.length = w) :
    countOnes m ≤ m.length * w := by
  unfold countOnes
  calc (m.map (fun r => r.countP (fun v => decide (v = 1)))).sum
      ≤ (m.map (fun _ => w)).sum := by
        apply List.sum_le_sum
        intro r hr
        calc r.countP (fun v => decide (v = 1)) ≤ r.length := List.countP_le_length _
        _ = w := hw r hr
    _ = m.length * w := sum_map_const m w

theorem countOnes_all_zero (m : List (List Int))
    (h : ∀ row ∈ m, ∀ v ∈ row, v = 0) : countOnes m = 0 := by
  unfold countOnes
  induction m with
  | nil => simp
  | cons r rs ih =>
    simp only [List.map_cons, List.sum_cons]
    rw [ih (fun row hr => h row (List.mem_cons.mpr (Or.inr hr)))]
    have : r.countP (fun v => decide (v = 1)) = 0 := by
      rw [List.countP_eq_zero]
      intro v hv
      have := h r (by simp) v hv
      simp [this]
    omega

theorem countOnes_all_one (m : List (List Int)) (w : Nat)
    (hw : ∀ row ∈ m, row.length = w)
    (h : ∀ row ∈ m, ∀ v ∈ row, v = 1) : countOnes m = m.length * w := by
  unfold countOnes
  induction m with
  | nil => simp
  | cons r rs ih =>
    simp only [List.map_cons, List.sum_cons, List.length_cons]
    rw [ih (fun row hr => hw row (List.mem_cons.mpr (Or.inr hr)))
         (fun row hr => h row (List.mem_cons.mpr (Or.inr hr)))]
    have hcount : r.countP (fun v => decide (v = 1)) = r.length := by
      rw [List.countP_eq_length]
      intro v hv
      simp [h r (by simp) v hv]
    rw [hcount, hw r (by simp)]
    ring

/-- `Metadata` struct from generator.go:198-205. -/
structure Metadata where
  totalCards : Int
  cardWidth : Int
  cardHeight : Int
  totalRows : Int
  holesPerCard : List Nat
  averageDensity : ℚ
deriving DecidableEq, Repr

/-- `GenerateMetadata` from generator.go:208-234.  Go's `float64` division
is modelled as exact rational division (the claim's formula is exact). -/
def generateMetadata (cards : List Card) : Metadata :=
  if cards.length = 0 then ⟨0, 0, 0, 0, [], 0⟩
  else
    let c0 : Card := cards.headD default
    let holesPerCard : List Nat := cards.map (fun c => c.countHoles)
    let totalHoles : Nat := holesPerCard.sum
    let totalPossibleHoles : Int := (cards.length : Int) * c0.width * c0.height
    { totalCards := (cards.length : Int)
      cardWidth := c0.width
      cardHeight := c0.height
      totalRows := (cards.length : Int) * c0.height
      holesPerCard := holesPerCard
      averageDensity :=
        if 0 < totalPossibleHoles then
          (totalHoles : ℚ) / (totalPossibleHoles : ℚ) * 100
        else 0 }

/-- Indexed map mirroring Go's index-based in-place loops. -/
def mapWithIdx {α β : Type} (f : Nat → α → β) : Nat → List α → List β
  | _, [] => []
  | i, a :: as => f i a :: mapWithIdx f (i + 1) as

theorem mapWithIdx_mapWithIdx {α : Type} (f g : Nat → α → α) (l : List α) (i : Nat) :
    mapWithIdx f i (mapWithIdx g i l) = mapWithIdx (fun j a => f j (g j a)) i l := by
  induction l generalizing i with
  | nil => rfl
  | cons a as ih => simp [mapWithIdx, ih]

theorem mapWithIdx_congr {α β : Type} (f g : Nat → α → β) (l : List α) (i : Nat)
    (h : ∀ j a, f j a = g j a) : mapWithIdx f i l = mapWithIdx g i l := by
  induction l generalizing i with
  | nil => rfl
  | cons a as ih => simp [mapWithIdx, h, ih]

theorem mapWithIdx_id {α : Type} (l : List α) (i : Nat) :
    mapWithIdx (fun _ a => a) i l = l := by
  induction l generalizing i with
  | nil => rfl
  | cons a as ih => simp [mapWithIdx, ih]

theorem length_mapWithIdx {α β : Type} (f : Nat → α → β) (l : List α) (i : Nat) :
    (mapWithIdx f i l).length = l.length := by
  induction l generalizing i with
  | nil => rfl
  | cons a as ih => simp [mapWithIdx, ih]

theorem mem_mapWithIdx {α β : Type} (f : Nat → α → β) (l : List α) (i : Nat) (b : β)
    (hb : b ∈ mapWithIdx f i l) : ∃ j a, a ∈ l ∧ b = f j a := by
  induction l generalizing i with
  | nil => simp [mapWithIdx] at hb
  | cons a as ih =>
    rcases List.mem_cons.mp hb with h | h
    · exact ⟨i, a, by simp, h⟩
    · obtain ⟨j, a', ha', hb'⟩ := ih (i + 1) h
      exact ⟨j, a', List.mem_cons.mpr (Or.inr ha'), hb'⟩

/-- `Card.Invert` from generator.go:189-195: flips every cell inside the
declared `Width`×`Height` window (modelled as a pure copy; Go mutates
in place). -/
def Card.invert (c : Card) : Card :=
  { c with matrix := mapWithIdx (fun y row =>
      if y < c.height.toNat then
        mapWithIdx (fun x v => if x < c.width.toNat then 1 - v else v) 0 row
      else row) 0 c.matrix }

theorem invert_matrix_cell (w : Int) (v : Int) (x : Nat) :
    (if x < w.toNat then 1 - (if x < w.toNat then 1 - v else v) else
      (if x < w.toNat then 1 - v else v)) = v := by
  by_cases hx : x < w.toNat
  · simp [hx]
  · simp [hx]

/-- C4 counterexample: the card with Width 5, Height 0 and an empty matrix
satisfies the claim's shape conditions (0 rows = Height, rows and cells
vacuously fine) yet `Validate` rejects it (non-positive height). -/
theorem validate_claim_counterexample :
    Card.validate ⟨1, [], 5, 0⟩ ≠ .ok () ∧
    ((([] : List (List Int)).length : Int) = (0 : Int) ∧
      (∀ row ∈ ([] : List (List Int)), (row.length : Int) = (5 : Int)) ∧
      (∀ row ∈ ([] : List (List Int)), ∀ v ∈ row, v = 0 ∨ v = 1)) := by
  refine ⟨by decide, by simp⟩

/-- C4 (amended): `Validate` succeeds iff both dimensions are positive, the
matrix has exactly `Height` rows, every row has length `Width`, and every
cell is 0 or 1. -/
theorem validate_succeeds_iff (c : Card) :
    c.validate = .ok () ↔
      0 < c.width ∧ 0 < c.height ∧ (c.matrix.length : Int) = c.height ∧
      (∀ row ∈ c.matrix, (row.length : Int) = c.width) ∧
      (∀ row ∈ c.matrix, ∀ v ∈ row, v = 0 ∨ v = 1) :=
  validate_ok_iff c

/-- C10: `Invert` is an involution on every Card, and maps a Card passing
`Validate` to a Card still passing `Validate`. -/
theorem invert_involutive_and_preserves_validity :
    (∀ c : Card, c.invert.invert = c) ∧
    (∀ c : Card, c.validate = .ok () → c.invert.validate = .ok ()) := by
  constructor
  · intro c
    obtain ⟨num, m, w, h⟩ := c
    simp only [Card.invert, mapWithIdx_mapWithIdx]
    congr 1
    rw [mapWithIdx_congr _ (fun _ a => a)]
    · exact mapWithIdx_id m 0
    · intro j row
      by_cases hj : j < h.toNat
      · simp only [hj, if_pos, mapWithIdx_mapWithIdx]
        rw [mapWithIdx_congr _ (fun _ a => a)]
        · exact mapWithIdx_id row 0
        · intro x v
          exact invert_matrix_cell w v x
      · simp [hj]
  · intro c hval
    rw [validate_ok_iff] at hval
    obtain ⟨hw, hh, hlen, hrows, hcells⟩ := hval
    rw [validate_ok_iff]
    refine ⟨hw, hh, ?_, ?_, ?_⟩
    · simpa [Card.invert, length_mapWithIdx] using hlen
    · intro row hrow
      obtain ⟨j, r, hr, rfl⟩ := mem_mapWithIdx _ _ _ _ hrow
      by_cases hj : j < c.height.toNat
      · simpa [hj, length_mapWithIdx] using hrows r hr
      · simpa [hj] using hrows r hr
    · intro row hrow
      obtain ⟨j, r, hr, rfl⟩ := mem_mapWithIdx _ _ _ _ hrow
      by_cases hj : j < c.height.toNat
      · simp only [hj, if_pos]
        intro v hv
        obtain ⟨x, v0, hv0, rfl⟩ := mem_mapWithIdx _ _ _ _ hv
        by_cases hx : x < c.width.toNat
        · rcases hcells r hr v0 hv0 with h0 | h1
          · subst h0; simp [hx]
          · subst h1; simp [hx]
        · simpa [hx] using hcells r hr v0 hv0
      · simp only [hj, if_neg, ite_false]
        exact hcells r hr

/-- C10 witness: involution and validity preservation at a concrete card. -/
theorem invert_involutive_witness :
    (Card.invert (Card.invert ⟨1, [[0, 1], [1, 1]], 2, 2⟩) = ⟨1, [[0, 1], [1, 1]], 2, 2⟩) ∧
    Card.validate (Card.invert ⟨1, [[0, 1], [1, 1]], 2, 2⟩) = .ok () :=
  ⟨invert_involutive_and_preserves_validity.1 ⟨1, [[0, 1], [1, 1]], 2, 2⟩,
   invert_involutive_and_preserves_validity.2 ⟨1, [[0, 1], [1, 1]], 2, 2⟩ (by decide)⟩

theorem headD_mem {α : Type} (l : List α) (d : α) (h : l ≠ []) : l.headD d ∈ l := by
  cases l with
  | nil => exact absurd rfl h
  | cons a l => simp

/-- C9: metadata over a non-empty sequence of valid same-dimension cards:
per-card hole counts, the density formula, its [0,100] bounds, the all-zero
and all-one extremes, and the zero-valued result on empty input. -/
theorem generateMetadata_spec (cards : List Card) (w h : Int)
    (hne : cards ≠ [])
    (hval : ∀ c ∈ cards, c.validate = .ok ())
    (hdim : ∀ c ∈ cards, c.width = w ∧ c.height = h) :
    (generateMetadata cards).holesPerCard = cards.map (fun c => countOnes c.matrix) ∧
    (generateMetadata cards).averageDensity =
      100 * ((((cards.map (fun c => countOnes c.matrix)).sum : ℕ)) : ℚ) /
        ((cards.length : ℚ) * (w : ℚ) * (h : ℚ)) ∧
    0 ≤ (generateMetadata cards).averageDensity ∧
    (generateMetadata cards).averageDensity ≤ 100 ∧
    ((∀ c ∈ cards, ∀ row ∈ c.matrix, ∀ v ∈ row, v = 0) →
      (generateMetadata cards).averageDensity = 0) ∧
    ((∀ c ∈ cards, ∀ row ∈ c.matrix, ∀ v ∈ row, v = 1) →
      (generateMetadata cards).averageDensity = 100) ∧
    generateMetadata [] = ⟨0, 0, 0, 0, [], 0⟩ := by
  have hlen0 : cards.length ≠ 0 := by simpa using fun hh => hne (List.length_eq_zero.mp hh)
  have hc0 : cards.headD default ∈ cards := headD_mem cards default hne
  have hw0 : (cards.headD default).width = w := (hdim _ hc0).1
  have hh0 : (cards.headD default).height = h := (hdim _ hc0).2
  have hvalid0 := (validate_ok_iff _).mp (hval _ hc0)
  have hwpos : 0 < w := hw0 ▸ hvalid0.1
  have hhpos : 0 < h := hh0 ▸ hvalid0.2.1
  have hshape : ∀ c ∈ cards, c.matrix.length = h.toNat ∧
      ∀ row ∈ c.matrix, row.length = w.toNat := by
    intro c hc
    have hv := (validate_ok_iff c).mp (hval c hc)
    obtain ⟨hcw, hch⟩ := hdim c hc
    constructor
    · have := hv.2.2.1
      rw [hch] at this
      omega
    · intro row hrow
      have := hv.2.2.2.1 row hrow
      rw [hcw] at this
      omega
  have hmapEq : cards.map (fun c => c.countHoles) = cards.map (fun c => countOnes c.matrix) := by
    apply List.map_congr_left
    intro c hc
    obtain ⟨h1, h2⟩ := hshape c hc
    apply countHoles_eq_countOnes c
    · rw [h1]
      obtain ⟨hcw, hch⟩ := hdim c hc
      rw [hch]
    · intro row hrow
      rw [h2 row hrow]
      obtain ⟨hcw, hch⟩ := hdim c hc
      rw [hcw]
  have htp : (0 : Int) < (cards.length : Int) * (cards.headD default).width *
      (cards.headD default).height := by
    rw [hw0, hh0]
    have : 0 < (cards.length : Int) := by
      have := Nat.pos_of_ne_zero hlen0
      omega
    positivity
  have hmeta : generateMetadata cards =
      { totalCards := (cards.length : Int)
        cardWidth := (cards.headD default).width
        cardHeight := (cards.headD default).height
        totalRows := (cards.length : Int) * (cards.headD default).height
        holesPerCard := cards.map (fun c => c.countHoles)
        averageDensity :=
          ((((cards.map (fun c => c.countHoles)).sum : ℕ)) : ℚ) /
            ((((cards.length : Int) * (cards.headD default).width *
              (cards.headD default).height : Int) : ℚ)) * 100 } := by
    rw [generateMetadata, if_neg hlen0]
    simp only []
    rw [if_pos htp]
  set S : Nat := (cards.map (fun c => countOnes c.matrix)).sum with hS
  have hsum : (cards.map (fun c => c.countHoles)).sum = S := by rw [hmapEq]
  have hcast : ((((cards.length : Int) * (cards.headD default).width *
      (cards.headD default).height : Int) : ℚ)) =
      (cards.length : ℚ) * (w : ℚ) * (h : ℚ) := by
    rw [hw0, hh0]
    push_cast
    ring
  have hdens : (generateMetadata cards).averageDensity =
      (S : ℚ) / ((cards.length : ℚ) * (w : ℚ) * (h : ℚ)) * 100 := by
    rw [hmeta]
    simp only []
    rw [hsum, hcast]
  have hQpos : (0 : ℚ) < (cards.length : ℚ) * (w : ℚ) * (h : ℚ) := by
    have h1 : (0:ℚ) < (cards.length : ℚ) := by
      have := Nat.pos_of_ne_zero hlen0
      exact_mod_cast this
    have h2 : (0:ℚ) < (w : ℚ) := by exact_mod_cast hwpos
    have h3 : (0:ℚ) < (h : ℚ) := by exact_mod_cast hhpos
    positivity
  have hSle : (S : ℚ) ≤ (cards.length : ℚ) * (w : ℚ) * (h : ℚ) := by
    have hnat : S ≤ cards.length * (h.toNat * w.toNat) := by
      rw [hS]
      calc (cards.map (fun c => countOnes c.matrix)).sum
          ≤ (cards.map (fun _ => h.toNat * w.toNat)).sum := by
            apply List.sum_le_sum
            intro c hc
            obtain ⟨h1, h2⟩ := hshape c hc
            calc countOnes c.matrix ≤ c.matrix.length * w.toNat := countOnes_le _ _ h2
              _ = h.toNat * w.toNat := by rw [h1]
        _ = cards.length * (h.toNat * w.toNat) := sum_map_const ..
    have hwq : ((w.toNat : ℕ) : ℚ) = (w : ℚ) := by
      have : ((w.toNat : ℕ) : Int) = w := Int.toNat_of_nonneg (le_of_lt hwpos)
      exact_mod_cast this
    have hhq : ((h.toNat : ℕ) : ℚ) = (h : ℚ) := by
      have : ((h.toNat : ℕ) : Int) = h := Int.toNat_of_nonneg (le_of_lt hhpos)
      exact_mod_cast this
    calc (S : ℚ) ≤ ((cards.length * (h.toNat * w.toNat) : ℕ) : ℚ) := by exact_mod_cast hnat
      _ = (cards.length : ℚ) * ((h.toNat : ℕ) : ℚ) * ((w.toNat : ℕ) : ℚ) := by
          push_cast; ring
      _ = (cards.length : ℚ) * (w : ℚ) * (h : ℚ) := by rw [hwq, hhq]; ring
  refine ⟨?_, ?_, ?_, ?_, ?_, ?_, rfl⟩
  · rw [hmeta]
    exact hmapEq
  · rw [hdens]
    ring
  · rw [hdens]
    positivity
  · rw [hdens]
    have hdiv : (S : ℚ) / ((cards.length : ℚ) * (w : ℚ) * (h : ℚ)) ≤ 1 :=
      (div_le_one hQpos).mpr hSle
    nlinarith
  · intro hzero
    rw [hdens]
    have : S = 0 := by
      rw [hS]
      have : cards.map (fun c => countOnes c.matrix) = cards.map (fun _ => 0) := by
        apply List.map_congr_left
        intro c hc
        exact countOnes_all_zero _ (hzero c hc)
      rw [this, sum_map_const]
      simp
    rw [this]
    simp
  · intro hone
    rw [hdens]
    have hSeq : (S : ℚ) = (cards.length : ℚ) * (w : ℚ) * (h : ℚ) := by
      have hnat : S = cards.length * (h.toNat * w.toNat) := by
        rw [hS]
        have : cards.map (fun c => countOnes c.matrix)
            = cards.map (fun c => h.toNat * w.toNat) := by
          apply List.map_congr_left
          intro c hc
          obtain ⟨h1, h2⟩ := hshape c hc
          rw [countOnes_all_one c.matrix w.toNat h2 (hone c hc), h1]
        rw [this, sum_map_const]
      have hwq : ((w.toNat : ℕ) : ℚ) = (w : ℚ) := by
        have : ((w.toNat : ℕ) : Int) = w := Int.toNat_of_nonneg (le_of_lt hwpos)
        exact_mod_cast this
      have hhq : ((h.toNat : ℕ) : ℚ) = (h : ℚ) := by
        have : ((h.toNat : ℕ) : Int) = h := Int.toNat_of_nonneg (le_of_lt hhpos)
        exact_mod_cast this
      calc (S : ℚ) = ((cards.length * (h.toNat * w.toNat) : ℕ) : ℚ) := by exact_mod_cast hnat
        _ = (cards.length : ℚ) * ((h.toNat : ℕ) : ℚ) * ((w.toNat : ℕ) : ℚ) := by
            push_cast; ring
        _ = (cards.length : ℚ) * (w : ℚ) * (h : ℚ) := by rw [hwq, hhq]; ring
    rw [hSeq, div_self (ne_of_gt hQpos)]
    norm_num

/-- A concrete all-zero 26×8 card used by several witnesses. -/
def zeroCard : Card := ⟨1, List.replicate 8 (List.replicate 26 0), 26, 8⟩

/-- C9 witness: metadata properties evaluated at a concrete singleton card set. -/
theorem generateMetadata_spec_witness :
    (generateMetadata [zeroCard]).holesPerCard
        = [zeroCard].map (fun c => countOnes c.matrix) ∧
    (generateMetadata [zeroCard]).averageDensity =
      100 * (((([zeroCard].map (fun c => countOnes c.matrix)).sum : ℕ)) : ℚ) /
        (([zeroCard].length : ℚ) * ((26 : Int) : ℚ) * ((8 : Int) : ℚ)) ∧
    0 ≤ (generateMetadata [zeroCard]).averageDensity ∧
    (generateMetadata [zeroCard]).averageDensity ≤ 100 ∧
    ((∀ c ∈ [zeroCard], ∀ row ∈ c.matrix, ∀ v ∈ row, v = 0) →
      (generateMetadata [zeroCard]).averageDensity = 0) ∧
    ((∀ c ∈ [zeroCard], ∀ row ∈ c.matrix, ∀ v ∈ row, v = 1) →
      (generateMetadata [zeroCard]).averageDensity = 100) ∧
    generateMetadata [] = ⟨0, 0, 0, 0, [], 0⟩ :=
  generateMetadata_spec [zeroCard] 26 8 (by decide)
    (by intro c hc; rw [List.mem_singleton.mp hc]; decide)
    (by intro c hc; rw [List.mem_singleton.mp hc]; exact ⟨rfl, rfl⟩)

/-- The width-mismatch message of `Generate`. -/
def widthErrMsg (w : Nat) : String :=
  "image width (" ++ toString w ++ ") does not match expected width (208 = 26 x 8)"

theorem widthErrMsg_ne_emptyMsg (w : Nat) : widthErrMsg w ≠ "empty matrix provided" := by
  intro h
  have h2 := congrArg (fun t => t.data.headD ' ') h
  simp only [widthErrMsg, String.data_append] at h2
  simp at h2

/-- C2: `Generate` on a non-empty grid of 208-wide rows yields one card per
row, numbered 1..N, reshaped row-major into 8 rows of 26; a uniform grid of
any other width yields the width error naming actual and expected widths
(distinct from the empty-input error); the empty grid yields the
empty-input error. -/
theorem generate_spec :
    (∀ (matrix : List (List Int)), matrix ≠ [] →
      (∀ row ∈ matrix, row.length = CardWidth * CardHeight) →
      ∃ cards, generate matrix = .ok cards ∧ cards.length = matrix.length ∧
        ∀ i, i < cards.length →
          (cards.getD i default).number = (i : Int) + 1 ∧
          (cards.getD i default).width = (CardWidth : Int) ∧
          (cards.getD i default).height = (CardHeight : Int) ∧
          ∀ r, r < CardHeight → ∀ co, co < CardWidth →
            ((cards.getD i default).matrix.getD r []).getD co 0
              = (matrix.getD i []).getD (r * CardWidth + co) 0) ∧
    (∀ (matrix : List (List Int)) (w : Nat), matrix ≠ [] →
      (∀ row ∈ matrix, row.length = w) → w ≠ CardWidth * CardHeight →
      generate matrix = .error (widthErrMsg w) ∧
      widthErrMsg w ≠ "empty matrix provided") ∧
    generate [] = .error "empty matrix provided" := by
  refine ⟨?_, ?_, rfl⟩
  · intro matrix hne hw
    have hlen0 : matrix.length ≠ 0 := fun hh => hne (List.length_eq_zero.mp hh)
    have hhead : (matrix.headD []).length = CardWidth * CardHeight :=
      hw _ (headD_mem matrix [] hne)
    have hgen : generate matrix = .ok ((List.range matrix.length).map (fun (cardNum : Nat) =>
        ({ number := (cardNum : Int) + 1
           matrix := (List.range CardHeight).map (fun row =>
             (List.range CardWidth).map (fun col =>
               (matrix.getD cardNum []).getD (row * CardWidth + col) 0))
           width := (CardWidth : Int)
           height := (CardHeight : Int) } : Card))) := by
      rw [generate, if_neg hlen0, if_neg (by rw [hhead]; simp)]
    refine ⟨_, hgen, ?_, ?_⟩
    · simp
    · intro i hi
      simp only [List.length_map, List.length_range] at hi
      rw [map_range_getD _ _ _ _ hi]
      refine ⟨rfl, rfl, rfl, ?_⟩
      intro r hr co hco
      simp only []
      rw [map_range_getD _ _ _ _ hr, map_range_getD _ _ _ _ hco]
  · intro matrix w hne hw hwne
    have hlen0 : matrix.length ≠ 0 := fun hh => hne (List.length_eq_zero.mp hh)
    have hhead : (matrix.headD []).length = w := hw _ (headD_mem matrix [] hne)
    constructor
    · rw [generate, if_neg hlen0, if_pos (by rw [hhead]; exact hwne), hhead]
      rfl
    · exact widthErrMsg_ne_emptyMsg w

/-- C2 witness: a concrete 1×208 grid generates one card; a 1×3 grid yields
the width error; the empty grid yields the empty-input error. -/
theorem generate_spec_witness :
    (∃ cards, generate [List.replicate 208 (0 : Int)] = .ok cards ∧
      cards.length = [List.replicate 208 (0 : Int)].length ∧
      ∀ i, i < cards.length →
        (cards.getD i default).number = (i : Int) + 1 ∧
        (cards.getD i default).width = (CardWidth : Int) ∧
        (cards.getD i default).height = (CardHeight : Int) ∧
        ∀ r, r < CardHeight → ∀ co, co < CardWidth →
          ((cards.getD i default).matrix.getD r []).getD co 0
            = ([List.replicate 208 (0 : Int)].getD i []).getD (r * CardWidth + co) 0) ∧
    (generate [[0, 0, 0]] = .error (widthErrMsg 3) ∧
      widthErrMsg 3 ≠ "empty matrix provided") ∧
    generate [] = .error "empty matrix provided" :=
  ⟨generate_spec.1 [List.replicate 208 (0 : Int)] (by simp) (by
      intro row hrow
      rw [List.mem_singleton.mp hrow, List.length_replicate]
      rfl),
   generate_spec.2.1 [[0, 0, 0]] 3 (by decide) (by
      intro row hrow
      rw [List.mem_singleton.mp hrow]
      decide) (by decide),
   generate_spec.2.2⟩

/-! ### Decimal formatting (Go `%d`) and scanning (Go `Sscanf "%d"`) -/

/-- Decimal digits of `n`, most significant first, prepended to `acc`
(the semantics of Go's `%d` for non-negative values). -/
def natToDecTail (n : Nat) (acc : GoStr) : GoStr :=
  if n < 10 then Nat.digitChar n :: acc
  else natToDecTail (n / 10) (Nat.digitChar (n % 10) :: acc)
termination_by n
decreasing_by exact Nat.div_lt_self (by omega) (by omega)

/-- Go `%d` of a non-negative integer. -/
def natToDec (n : Nat) : GoStr := natToDecTail n []

/-- Go `%d` of an `int`. -/
def intToDec (i : Int) : GoStr :=
  if i < 0 then '-' :: natToDec (-i).toNat else natToDec i.toNat

/-- Numeric value of a digit string (how the scanner accumulates digits). -/
def decVal (s : GoStr) : Nat := s.foldl (fun a c => a * 10 + (c.toNat - 48)) 0

/-- Go scanner for the `%d` verb: skip spaces, optional sign, then a
non-empty digit run; returns the value and the unconsumed remainder. -/
def scanInt (s : GoStr) : Option (Int × GoStr) :=
  let s1 := s.dropWhile (fun c => c = ' ')
  match s1 with
  | '-' :: rest =>
    if (rest.takeWhile Char.isDigit) = [] then none
    else some (-(decVal (rest.takeWhile Char.isDigit) : Int), rest.dropWhile Char.isDigit)
  | '+' :: rest =>
    if (rest.takeWhile Char.isDigit) = [] then none
    else some ((decVal (rest.takeWhile Char.isDigit) : Int), rest.dropWhile Char.isDigit)
  | _ =>
    if (s1.takeWhile Char.isDigit) = [] then none
    else some ((decVal (s1.takeWhile Char.isDigit) : Int), s1.dropWhile Char.isDigit)

/-- `fmt.Sscanf(line, "<prefix> %d", &x)` after the prefix has been removed:
succeeds iff a number can be scanned (trailing input is ignored). -/
def parseGoInt (s : GoStr) : Except Unit Int :=
  match scanInt s with
  | none => .error ()
  | some (v, _) => .ok v

/-- `fmt.Sscanf(line, "Card %d:", &x)` after `"Card "` has been removed:
scans a number and then requires the literal `':'` to match. -/
def parseCardHeaderNum (s : GoStr) : Except Unit Int :=
  match scanInt s with
  | none => .error ()
  | some (v, rest) =>
    match rest with
    | ':' :: _ => .ok v
    | _ => .error ()

/-! ### Line splitting (`strings.Split(content, "\n")`) -/

/-- `strings.Split(s, "\n")`, on the character-list model. -/
def splitNl : GoStr → List GoStr
  | [] => [[]]
  | c :: cs =>
    if c = '\n' then [] :: splitNl cs
    else
      match splitNl cs with
      | [] => [[c]]
      | l :: ls => (c :: l) :: ls

/-- A sequence of lines each terminated by a newline. -/
def linesOf (ls : List GoStr) : GoStr := (ls.map (fun l => l ++ ['\n'])).flatten

/-- `unicode.IsSpace` restricted to ASCII (all inputs in scope are ASCII). -/
def goIsSpace (c : Char) : Bool :=
  c == ' ' || c == '\t' || c == '\n' || c == '\r' || c == '\x0b' || c == '\x0c'

/-- `strings.TrimSpace(l) == ""`. -/
def isBlank (l : GoStr) : Bool := l.all goIsSpace

/-! ### Text exporter (text.go:13-82) -/

/-- `TextExporter` struct from text.go:13-18. -/
structure TextExporter where
  title : GoStr
  totalCards : Int
  holeChar : Char
  noHoleChar : Char

/-- `NewTextExporter` from text.go:21-26 (default `#` / `.`). -/
def NewTextExporter : TextExporter := ⟨[], 0, '#', '.'⟩

/-- The matrix body written for one card (text.go:64-73): `Height` lines of
`Width` characters, each line newline-terminated. -/
def exportCardBody (e : TextExporter) (c : Card) : GoStr :=
  ((List.range c.height.toNat).map (fun y =>
    ((List.range c.width.toNat).map (fun x =>
      if (c.matrix.getD y []).getD x 0 = 1 then e.holeChar else e.noHoleChar)) ++ ['\n'])).flatten

/-- The per-card loop of `TextExporter.ExportCards` (text.go:54-79):
validates each card, then writes its header line, body, and a blank
separator line after every card but the last. -/
def exportLoop (e : TextExporter) (total : Nat) : List Card → Nat → Except String GoStr
  | [], _ => .ok []
  | c :: cs, i =>
    match c.validate with
    | .error err => .error ("invalid card " ++ toString (i + 1) ++ ": " ++ err)
    | .ok _ =>
      match exportLoop e total cs (i + 1) with
      | .error err => .error err
      | .ok rest =>
        .ok (("Card ".data ++ intToDec c.number ++ [':', '\n'])
          ++ exportCardBody e c
          ++ (if i < total - 1 then ['\n'] else [])
          ++ rest)

/-- `TextExporter.ExportCards` from text.go:35-82.  The written stream is
modelled as the full output on success; a validation failure aborts with
the error (Go returns the error; partial writes are not modelled). -/
def textExportCards (e : TextExporter) (cards : List Card) : Except String GoStr :=
  if cards.length = 0 then .error "no cards to export"
  else
    match exportLoop e cards.length cards 0 with
    | .error err => .error err
    | .ok body =>
      .ok (("Title: ".data ++ (if e.title = [] then "Untitled Pattern".data else e.title) ++ ['\n'])
        ++ ("Cards: ".data ++ natToDec cards.length ++ ['\n'])
        ++ ("Holes per card: ".data
            ++ intToDec ((cards.headD default).width * (cards.headD default).height) ++ ['\n'])
        ++ ['\n'] ++ body)

/-! ### Text parser (text.go:85-225) -/

/-- `ParseResult` struct from text.go:93-98. -/
structure ParseResult where
  title : GoStr
  cards : List Card
  totalCards : Int
  holesPerCard : Int
deriving DecidableEq, Repr

/-- Character loop of the row parser (text.go:188-198): `#`, `O`, `o` are
holes, `.` is no hole; anything else is an error naming card/row/column. -/
def parseRowChars (cardNum : Int) (row1 : Nat) : Nat → GoStr → Except String (List Int)
  | _, [] => .ok []
  | col, ch :: rest =>
    if ch = '#' ∨ ch = 'O' ∨ ch = 'o' then
      match parseRowChars cardNum row1 (col + 1) rest with
      | .error e => .error e
      | .ok vs => .ok (1 :: vs)
    else if ch = '.' then
      match parseRowChars cardNum row1 (col + 1) rest with
      | .error e => .error e
      | .ok vs => .ok (0 :: vs)
    else
      .error ("invalid character '" ++ toString ch ++ "' in card " ++ toString cardNum
        ++ " row " ++ toString row1 ++ " col " ++ toString (col + 1)
        ++ " (expected #, O, or .)")

/-- One matrix row (text.go:182-198): width check, then character mapping. -/
def parseCardRow (cardNum : Int) (row1 : Nat) (line : GoStr) : Except String (List Int) :=
  if line.length ≠ CardWidth then
    .error ("card " ++ toString cardNum ++ " row " ++ toString row1
      ++ " has incorrect width: expected " ++ toString CardWidth
      ++ ", got " ++ toString line.length)
  else parseRowChars cardNum row1 0 line

/-- The `CardHeight` row reads of one card block (text.go:173-200). -/
def parseRows (cardNum : Int) : Nat → Nat → List GoStr → Except String (List (List Int))
  | _, 0, _ => .ok []
  | row, _ + 1, [] =>
    .error ("unexpected end of file while parsing card " ++ toString cardNum
      ++ " row " ++ toString (row + 1))
  | row, rem + 1, l :: ls =>
    match parseCardRow cardNum (row + 1) l with
    | .error e => .error e
    | .ok r =>
      match parseRows cardNum (row + 1) rem ls with
      | .error e => .error e
      | .ok rs => .ok (r :: rs)

/-- The card-block loop of `TextParser.Parse` (text.go:148-224), including
the post-loop count check (text.go:220-222).  `lineIdx` is the 0-based
index of the first element of `lines` in the whole file. -/
def parseLoop (total : Int) : List GoStr → Nat → List Card → Int → Except String (List Card)
  | [], _, acc, _ =>
    if (acc.length : Int) ≠ total then
      .error ("expected " ++ toString total ++ " cards but found " ++ toString acc.length)
    else .ok acc
  | l :: rest, lineIdx, acc, cardNumber =>
    if isBlank l then parseLoop total rest (lineIdx + 1) acc cardNumber
    else if ¬ ("Card ".data.isPrefixOf l) then
      (if (acc.length : Int) = total then .ok acc
       else .error ("expected Card header on line " ++ toString (lineIdx + 1)
         ++ ", got: " ++ String.mk l))
    else
      match parseCardHeaderNum (l.drop 5) with
      | .error _ => .error ("invalid Card header on line " ++ toString (lineIdx + 1))
      | .ok parsedCardNum =>
        match parseRows parsedCardNum 0 CardHeight rest with
        | .error e => .error e
        | .ok mat =>
          match (Card.mk cardNumber mat (CardWidth : Int) (CardHeight : Int)).validate with
          | .error e => .error ("invalid card " ++ toString cardNumber ++ ": " ++ e)
          | .ok _ =>
            parseLoop total (rest.drop CardHeight) (lineIdx + 1 + CardHeight)
              (acc ++ [Card.mk cardNumber mat (CardWidth : Int) (CardHeight : Int)])
              (cardNumber + 1)
termination_by lines _ _ _ => lines.length
decreasing_by
  all_goals simp_wf
  all_goals omega

/-- `TextParser.Parse` from text.go:101-225. -/
def parse (content : GoStr) : Except String ParseResult :=
  let lines := splitNl content
  if lines.length < 4 then .error "invalid file format: too few lines"
  else if ¬ ("Title: ".data.isPrefixOf (lines.getD 0 [])) then
    .error "missing Title header on line 1"
  else if ¬ ("Cards: ".data.isPrefixOf (lines.getD 1 [])) then
    .error "missing Cards header on line 2"
  else
    match parseGoInt ((lines.getD 1 []).drop 7) with
    | .error _ => .error "invalid Cards value on line 2"
    | .ok totalCards =>
      if ¬ ("Holes per card: ".data.isPrefixOf (lines.getD 2 [])) then
        .error "missing Holes per card header on line 3"
      else
        match parseGoInt ((lines.getD 2 []).drop 16) with
        | .error _ => .error "invalid Holes per card value on line 3"
        | .ok holes =>
          let start : Nat := if 3 < lines.length ∧ isBlank (lines.getD 3 []) then 4 else 3
          match parseLoop totalCards (lines.drop start) start [] 1 with
          | .error e => .error e
          | .ok cards => .ok ⟨(lines.getD 0 []).drop 7, cards, totalCards, holes⟩

/-- Export with the default exporter then parse the result. -/
def textRoundTrip (cards : List Card) : Except String ParseResult :=
  match textExportCards NewTextExporter cards with
  | .error e => .error e
  | .ok content => parse content

/-! ### Lemmas on decimal formatting and scanning -/

theorem digitChar_isDigit (d : Nat) (h : d < 10) : (Nat.digitChar d).isDigit = true := by
  interval_cases d <;> decide

theorem digitChar_val (d : Nat) (h : d < 10) : (Nat.digitChar d).toNat - 48 = d := by
  interval_cases d <;> decide

/-- Number of decimal digits, following `natToDecTail`'s recursion. -/
def numDigits (n : Nat) : Nat :=
  if n < 10 then 1 else numDigits (n / 10) + 1
termination_by n
decreasing_by exact Nat.div_lt_self (by omega) (by omega)

theorem decVal_foldl_natToDecTail (n : Nat) :
    ∀ (acc : GoStr) (a : Nat),
      (natToDecTail n acc).foldl (fun a c => a * 10 + (c.toNat - 48)) a
        = acc.foldl (fun a c => a * 10 + (c.toNat - 48)) (a * 10 ^ numDigits n + n) := by
  induction n using Nat.strong_induction_on with
  | _ n ih =>
    intro acc a
    by_cases h : n < 10
    · rw [natToDecTail, if_pos h, numDigits, if_pos h]
      simp only [List.foldl_cons]
      rw [digitChar_val n h]
      ring_nf
    · rw [natToDecTail, if_neg h, numDigits, if_neg h]
      rw [ih (n / 10) (Nat.div_lt_self (by omega) (by omega))]
      simp only [List.foldl_cons]
      rw [digitChar_val (n % 10) (Nat.mod_lt n (by omega))]
      congr 1
      have hn : n / 10 * 10 + n % 10 = n := by
        have := Nat.div_add_mod n 10
        omega
      rw [pow_succ]
      ring_nf
      omega

theorem decVal_natToDec (n : Nat) : decVal (natToDec n) = n := by
  unfold decVal natToDec
  rw [decVal_foldl_natToDecTail n [] 0]
  simp

theorem natToDecTail_mem (n : Nat) :
    ∀ (acc : GoStr) (c : Char), c ∈ natToDecTail n acc → c.isDigit = true ∨ c ∈ acc := by
  induction n using Nat.strong_induction_on with
  | _ n ih =>
    intro acc c hc
    by_cases h : n < 10
    · rw [natToDecTail, if_pos h] at hc
      rcases List.mem_cons.mp hc with rfl | hc
      · exact Or.inl (digitChar_isDigit n h)
      · exact Or.inr hc
    · rw [natToDecTail, if_neg h] at hc
      rcases ih (n / 10) (Nat.div_lt_self (by omega) (by omega)) _ c hc with hd | hmem
      · exact Or.inl hd
      · rcases List.mem_cons.mp hmem with rfl | hmem
        · exact Or.inl (digitChar_isDigit (n % 10) (Nat.mod_lt n (by omega)))
        · exact Or.inr hmem

theorem natToDec_digits (n : Nat) : ∀ c ∈ natToDec n, c.isDigit = true := by
  intro c hc
  rcases natToDecTail_mem n [] c hc with h | h
  · exact h
  · simp at h

theorem natToDecTail_ne_nil (n : Nat) : ∀ (acc : GoStr), natToDecTail n acc ≠ [] := by
  induction n using Nat.strong_induction_on with
  | _ n ih =>
    intro acc
    by_cases h : n < 10
    · rw [natToDecTail, if_pos h]
      simp
    · rw [natToDecTail, if_neg h]
      exact ih (n / 10) (Nat.div_lt_self (by omega) (by omega)) _

theorem natToDec_ne_nil (n : Nat) : natToDec n ≠ [] := natToDecTail_ne_nil n []

theorem isDigit_char_facts (c : Char) (h : c.isDigit = true) :
    c ≠ ' ' ∧ c ≠ '-' ∧ c ≠ '+' ∧ c ≠ '\n' ∧ c ≠ ':' := by
  refine ⟨?_, ?_, ?_, ?_, ?_⟩ <;> intro heq <;> subst heq <;> simp [Char.isDigit] at h

theorem takeWhile_append_all {p : Char → Bool} (l l2 : GoStr) (h : ∀ c ∈ l, p c = true) :
    (l ++ l2).takeWhile p = l ++ l2.takeWhile p := by
  induction l with
  | nil => simp
  | cons c cs ih =>
    simp only [List.cons_append, List.takeWhile_cons, h c (by simp)]
    rw [ih (fun d hd => h d (by simp [hd]))]
    simp

theorem dropWhile_append_all {p : Char → Bool} (l l2 : GoStr) (h : ∀ c ∈ l, p c = true) :
    (l ++ l2).dropWhile p = l2.dropWhile p := by
  induction l with
  | nil => simp
  | cons c cs ih =>
    simp only [List.cons_append, List.dropWhile_cons, h c (by simp)]
    exact ih (fun d hd => h d (by simp [hd]))

theorem takeWhile_nil_head {p : Char → Bool} (l : GoStr)
    (h : ∀ c, l.head? = some c → p c = false) : l.takeWhile p = [] := by
  cases l with
  | nil => simp
  | cons c cs => simp [List.takeWhile_cons, h c rfl]

theorem dropWhile_id_head {p : Char → Bool} (l : GoStr)
    (h : ∀ c, l.head? = some c → p c = false) : l.dropWhile p = l := by
  cases l with
  | nil => simp
  | cons c cs => simp [List.dropWhile_cons, h c rfl]

/-- Scanning the decimal form of `n` followed by a non-digit suffix yields
`n` and the suffix. -/
theorem scanInt_natToDec (n : Nat) (suffix : GoStr)
    (hsuf : ∀ c, suffix.head? = some c → c.isDigit = false) :
    scanInt (natToDec n ++ suffix) = some ((n : Int), suffix) := by
  obtain ⟨d, ds, hds⟩ : ∃ d ds, natToDec n = d :: ds := by
    cases hd : natToDec n with
    | nil => exact absurd hd (natToDec_ne_nil n)
    | cons d ds => exact ⟨d, ds, rfl⟩
  have hddig : d.isDigit = true := natToDec_digits n d (by rw [hds]; simp)
  obtain ⟨hdsp, hdminus, hdplus, _, _⟩ := isDigit_char_facts d hddig
  have hdrop : (natToDec n ++ suffix).dropWhile (fun c => c = ' ') = natToDec n ++ suffix := by
    apply dropWhile_id_head
    intro c hc
    rw [hds] at hc
    simp only [List.cons_append, List.head?_cons, Option.some.injEq] at hc
    subst hc
    simp [hdsp]
  have htake : (natToDec n ++ suffix).takeWhile Char.isDigit = natToDec n := by
    rw [takeWhile_append_all _ _ (natToDec_digits n), takeWhile_nil_head _ hsuf]
    simp
  have hdropd : (natToDec n ++ suffix).dropWhile Char.isDigit = suffix := by
    rw [dropWhile_append_all _ _ (natToDec_digits n), dropWhile_id_head _ hsuf]
  rw [scanInt]
  simp only [hdrop]
  rw [hds]
  simp only [List.cons_append]
  split
  · rename_i heq
    rw [List.cons.injEq] at heq
    exact absurd heq.1 hdminus
  · rename_i heq
    rw [List.cons.injEq] at heq
    exact absurd heq.1 hdplus
  · rw [← List.cons_append, ← hds, htake, hdropd]
    rw [if_neg (by rw [hds]; simp)]
    rw [decVal_natToDec]

theorem parseGoInt_natToDec (n : Nat) : parseGoInt (natToDec n) = .ok (n : Int) := by
  rw [parseGoInt]
  have h := scanInt_natToDec n [] (by intro c hc; simp at hc)
  rw [List.append_nil] at h
  rw [h]

theorem intToDec_nonneg (i : Int) (h : 0 ≤ i) : intToDec i = natToDec i.toNat := by
  rw [intToDec, if_neg (by omega)]

theorem parseCardHeaderNum_intToDec (k : Int) (hk : 0 ≤ k) :
    parseCardHeaderNum (intToDec k ++ [':']) = .ok k := by
  rw [intToDec_nonneg k hk, parseCardHeaderNum]
  rw [scanInt_natToDec k.toNat [':'] (by intro c hc; simp at hc; subst hc; decide)]
  simp only []
  rw [Int.toNat_of_nonneg hk]

/-! ### Lemmas on line splitting -/

theorem splitNl_no_nl (s : GoStr) (h : ∀ c ∈ s, c ≠ '\n') : splitNl s = [s] := by
  induction s with
  | nil => rfl
  | cons c cs ih =>
    rw [splitNl, if_neg (h c (by simp)), ih (fun d hd => h d (by simp [hd]))]

theorem splitNl_ne_nil (s : GoStr) : splitNl s ≠ [] := by
  induction s with
  | nil => simp [splitNl]
  | cons c cs ih =>
    rw [splitNl]
    by_cases h : c = '\n'
    · simp [h]
    · rw [if_neg h]
      cases hs : splitNl cs with
      | nil => simp
      | cons l ls => simp

theorem splitNl_append (a b : GoStr) (h : ∀ c ∈ a, c ≠ '\n') :
    splitNl (a ++ '\n' :: b) = a :: splitNl b := by
  induction a with
  | nil => simp [splitNl]
  | cons c cs ih =>
    rw [List.cons_append, splitNl, if_neg (h c (by simp))]
    rw [ih (fun d hd => h d (by simp [hd]))]

theorem splitNl_linesOf (ls : List GoStr) (r : GoStr)
    (h : ∀ l ∈ ls, ∀ c ∈ l, c ≠ '\n') :
    splitNl (linesOf ls ++ r) = ls ++ splitNl r := by
  induction ls with
  | nil => simp [linesOf]
  | cons l ls ih =>
    have h1 : linesOf (l :: ls) ++ r = l ++ '\n' :: (linesOf ls ++ r) := by
      simp [linesOf]
    rw [h1, splitNl_append _ _ (h l (by simp)), ih (fun l' hl' => h l' (by simp [hl']))]
    rfl

theorem linesOf_append (a b : List GoStr) : linesOf (a ++ b) = linesOf a ++ linesOf b := by
  simp [linesOf]

/-! ### Lemmas on the text exporter -/

/-- The lines of one exported card block: the `Card N:` header followed by
the character-mapped matrix rows. -/
def blockLines (e : TextExporter) (c : Card) : List GoStr :=
  ("Card ".data ++ intToDec c.number ++ [':'])
    :: c.matrix.map (fun row => row.map (fun v => if v = 1 then e.holeChar else e.noHoleChar))

/-- The exported character stream of a card list: blocks joined by one blank
separator line, no separator after the last. -/
def expandB (e : TextExporter) : List Card → GoStr
  | [] => []
  | [c] => ("Card ".data ++ intToDec c.number ++ [':', '\n']) ++ exportCardBody e c
  | c :: cs => ("Card ".data ++ intToDec c.number ++ [':', '\n']) ++ exportCardBody e c
      ++ ['\n'] ++ expandB e cs

theorem map_range_getD_eq {α β : Type} (m : List α) (d : α) (f : α → β) :
    (List.range m.length).map (fun i => f (m.getD i d)) = m.map f := by
  induction m with
  | nil => simp
  | cons x xs ih =>
    rw [show (x :: xs).length = xs.length + 1 from rfl, List.range_succ_eq_map]
    simp only [List.map_cons, List.map_map]
    congr 1

theorem exportCardBody_eq (e : TextExporter) (c : Card)
    (hh : c.matrix.length = c.height.toNat)
    (hw : ∀ row ∈ c.matrix, row.length = c.width.toNat) :
    exportCardBody e c = linesOf (c.matrix.map (fun row =>
      row.map (fun v => if v = 1 then e.holeChar else e.noHoleChar))) := by
  unfold exportCardBody linesOf
  rw [← hh]
  have houter : (List.range c.matrix.length).map (fun y =>
      ((List.range c.width.toNat).map (fun x =>
        if (c.matrix.getD y []).getD x 0 = 1 then e.holeChar else e.noHoleChar)) ++ ['\n'])
      = c.matrix.map (fun row => ((List.range c.width.toNat).map (fun x =>
        if row.getD x 0 = 1 then e.holeChar else e.noHoleChar)) ++ ['\n']) :=
    map_range_getD_eq c.matrix [] (fun row => ((List.range c.width.toNat).map (fun x =>
      if row.getD x 0 = 1 then e.holeChar else e.noHoleChar)) ++ ['\n'])
  rw [houter, List.map_map]
  congr 1
  apply List.map_congr_left
  intro row hrow
  simp only [Function.comp]
  congr 1
  rw [← hw row hrow]
  exact map_range_getD_eq row 0 (fun v => if v = 1 then e.holeChar else e.noHoleChar)

theorem exportLoop_ok (e : TextExporter) :
    ∀ (cs : List Card) (i total : Nat), (∀ c ∈ cs, c.validate = .ok ()) →
      i + cs.length = total → exportLoop e total cs i = .ok (expandB e cs) := by
  intro cs
  induction cs with
  | nil => intro i total _ _; rfl
  | cons c cs ih =>
    intro i total hval htot
    rw [exportLoop, hval c (by simp)]
    simp only []
    rw [ih (i + 1) total (fun c' hc' => hval c' (by simp [hc'])) (by simp at htot; omega)]
    simp only []
    cases cs with
    | nil =>
      have : ¬ i < total - 1 := by simp at htot; omega
      rw [if_neg this]
      simp [expandB]
    | cons c' rest =>
      have : i < total - 1 := by simp at htot; omega
      rw [if_pos this]
      simp [expandB]

theorem textExportCards_ok (e : TextExporter) (cards : List Card) (hne : cards ≠ [])
    (hval : ∀ c ∈ cards, c.validate = .ok ()) :
    textExportCards e cards = .ok (
      ("Title: ".data ++ (if e.title = [] then "Untitled Pattern".data else e.title) ++ ['\n'])
      ++ ("Cards: ".data ++ natToDec cards.length ++ ['\n'])
      ++ ("Holes per card: ".data
          ++ intToDec ((cards.headD default).width * (cards.headD default).height) ++ ['\n'])
      ++ ['\n'] ++ expandB e cards) := by
  rw [textExportCards,
    if_neg (by simpa using fun hh => hne (List.length_eq_zero.mp hh))]
  rw [exportLoop_ok e cards 0 cards.length hval (by omega)]

theorem exportLoop_error (e : TextExporter) :
    ∀ (cs : List Card) (i total : Nat), (∃ c ∈ cs, c.validate ≠ .ok ()) →
      ∃ err, exportLoop e total cs i = .error err := by
  intro cs
  induction cs with
  | nil => intro i total h; simp at h
  | cons c cs ih =>
    intro i total h
    rcases hv : c.validate with err | u
    · exact ⟨_, by rw [exportLoop, hv]⟩
    · obtain ⟨⟩ := u
      obtain ⟨c', hc', hval'⟩ := h
      rcases List.mem_cons.mp hc' with rfl | hc'
      · exact absurd hv hval'
      · obtain ⟨err, herr⟩ := ih (i + 1) total ⟨c', hc', hval'⟩
        refine ⟨err, ?_⟩
        rw [exportLoop, hv]
        simp only []
        rw [herr]

theorem textExportCards_error (e : TextExporter) (cards : List Card)
    (h : ∃ c ∈ cards, c.validate ≠ .ok ()) :
    ∃ err, textExportCards e cards = .error err := by
  have hne : cards.length ≠ 0 := by
    obtain ⟨c, hc, _⟩ := h
    cases cards with
    | nil => simp at hc
    | cons a l => simp
  obtain ⟨err, herr⟩ := exportLoop_error e cards 0 cards.length h
  refine ⟨err, ?_⟩
  rw [textExportCards, if_neg hne, herr]

/-! ### Lemmas on the text parser -/

/-- A card the text format can represent losslessly: standard 26×8
dimensions and a valid matrix. -/
def GoodCard (c : Card) : Prop :=
  c.width = (CardWidth : Int) ∧ c.height = (CardHeight : Int) ∧ c.validate = .ok ()

/-- Cards renumbered sequentially from `k` (what the parser's running
`cardNumber` counter produces). -/
def renumber (k : Int) : List Card → List Card
  | [] => []
  | c :: cs => { c with number := k } :: renumber (k + 1) cs

/-- Cards already numbered sequentially from `k`. -/
def NumberedFrom : Int → List Card → Prop
  | _, [] => True
  | k, c :: cs => c.number = k ∧ NumberedFrom (k + 1) cs

theorem renumber_eq_self (k : Int) (cs : List Card) (h : NumberedFrom k cs) :
    renumber k cs = cs := by
  induction cs generalizing k with
  | nil => rfl
  | cons c cs ih =>
    obtain ⟨h1, h2⟩ := h
    rw [renumber, ih (k + 1) h2, ← h1]

theorem length_renumber (k : Int) (cs : List Card) : (renumber k cs).length = cs.length := by
  induction cs generalizing k with
  | nil => rfl
  | cons c cs ih => simp [renumber, ih]

theorem parseRowChars_ok (num : Int) (r1 : Nat) :
    ∀ (row : List Int) (col : Nat), (∀ v ∈ row, v = 0 ∨ v = 1) →
      parseRowChars num r1 col (row.map (fun v => if v = 1 then '#' else '.')) = .ok row := by
  intro row
  induction row with
  | nil => intro col _; rfl
  | cons v vs ih =>
    intro col hv
    rcases hv v (by simp) with h0 | h1
    · subst h0
      simp only [List.map_cons, if_neg (by omega : ¬ (0 : Int) = 1)]
      rw [parseRowChars]
      rw [if_neg (by decide), if_pos rfl]
      rw [ih (col + 1) (fun u hu => hv u (by simp [hu]))]
    · subst h1
      simp only [List.map_cons, if_pos rfl]
      rw [parseRowChars]
      rw [if_pos (by decide)]
      rw [ih (col + 1) (fun u hu => hv u (by simp [hu]))]

theorem parseCardRow_ok (num : Int) (r1 : Nat) (row : List Int)
    (hlen : row.length = CardWidth) (hv : ∀ v ∈ row, v = 0 ∨ v = 1) :
    parseCardRow num r1 (row.map (fun v => if v = 1 then '#' else '.')) = .ok row := by
  rw [parseCardRow, if_neg (by simp [hlen])]
  exact parseRowChars_ok num r1 row 0 hv

theorem parseRows_ok (num : Int) :
    ∀ (m : List (List Int)) (ls : List GoStr) (row0 n : Nat), n = m.length →
      (∀ r ∈ m, r.length = CardWidth ∧ ∀ v ∈ r, v = 0 ∨ v = 1) →
      parseRows num row0 n
        ((m.map (fun row => row.map (fun v => if v = 1 then '#' else '.'))) ++ ls) = .ok m := by
  intro m ls row0 n hn
  subst hn
  revert ls row0
  induction m with
  | nil => intro ls row0 _; rfl
  | cons r m ih =>
    intro ls row0
    intro hm
    simp only [List.map_cons, List.cons_append, List.length_cons]
    rw [parseRows]
    rw [parseCardRow_ok num (row0 + 1) r (hm r (by simp)).1 (hm r (by simp)).2]
    simp only []
    rw [ih ls (row0 + 1) (fun r' hr' => hm r' (by simp [hr']))]

theorem parseLoop_nil (total : Int) (li : Nat) (acc : List Card) (k : Int) :
    parseLoop total [] li acc k =
      if (acc.length : Int) ≠ total then
        .error ("expected " ++ toString total ++ " cards but found " ++ toString acc.length)
      else .ok acc := by
  simp only [parseLoop]

theorem parseLoop_blank (total : Int) (l : GoStr) (rest : List GoStr) (li : Nat)
    (acc : List Card) (k : Int) (hl : isBlank l = true) :
    parseLoop total (l :: rest) li acc k = parseLoop total rest (li + 1) acc k := by
  simp only [parseLoop]
  rw [if_pos hl]

theorem parseLoop_stop (total : Int) (l : GoStr) (rest : List GoStr) (li : Nat)
    (acc : List Card) (k : Int) (hl : isBlank l = false)
    (hpre : "Card ".data.isPrefixOf l = false) (hacc : (acc.length : Int) = total) :
    parseLoop total (l :: rest) li acc k = .ok acc := by
  simp only [parseLoop]
  rw [if_neg (by simp [hl]), if_pos (by simp [hpre]), if_pos hacc]

theorem isPrefixOf_self_append (l r : GoStr) : l.isPrefixOf (l ++ r) = true := by
  induction l with
  | nil => simp [List.isPrefixOf]
  | cons c cs ih => simp [List.isPrefixOf, ih]

theorem isBlank_card_header (x : GoStr) :
    isBlank ((['C', 'a', 'r', 'd', ' '] : GoStr) ++ x) = false := by
  simp [isBlank, goIsSpace]

theorem card_prefix_lit (x : GoStr) :
    (['C', 'a', 'r', 'd', ' '] : GoStr).isPrefixOf ((['C', 'a', 'r', 'd', ' '] : GoStr) ++ x)
      = true :=
  isPrefixOf_self_append _ x

/-- Parsing one well-formed card block consumes its 9 lines, appends the
card renumbered to the running counter, and continues. -/
theorem parseLoop_block (total : Int) (c : Card) (rest : List GoStr) (li : Nat)
    (acc : List Card) (k : Int) (hc : GoodCard c) (hnum : 0 ≤ c.number) :
    parseLoop total (blockLines NewTextExporter c ++ rest) li acc k
      = parseLoop total rest (li + 1 + CardHeight) (acc ++ [{ c with number := k }]) (k + 1) := by
  obtain ⟨hcw, hch, hcval⟩ := hc
  have hv := (validate_ok_iff c).mp hcval
  have hmlen : c.matrix.length = CardHeight := by
    have h3 := hv.2.2.1
    rw [hch] at h3
    exact_mod_cast h3
  have hrows : ∀ r ∈ c.matrix, r.length = CardWidth := by
    intro r hr
    have h3 := hv.2.2.2.1 r hr
    rw [hcw] at h3
    exact_mod_cast h3
  have hcells := hv.2.2.2.2
  rw [blockLines, List.cons_append]
  simp only [parseLoop]
  rw [show NewTextExporter.holeChar = '#' from rfl, show NewTextExporter.noHoleChar = '.' from rfl]
  rw [if_neg (by simp [isBlank, goIsSpace])]
  rw [if_neg (by simp [card_prefix_lit])]
  rw [show List.drop 5 ((['C', 'a', 'r', 'd', ' '] : GoStr) ++ intToDec c.number ++ [':'])
      = intToDec c.number ++ [':'] from rfl]
  rw [parseCardHeaderNum_intToDec c.number hnum]
  simp only []
  rw [parseRows_ok c.number c.matrix rest 0 CardHeight hmlen.symm
    (fun r hr => ⟨hrows r hr, hcells r hr⟩)]
  simp only []
  have hcard : Card.mk k c.matrix (CardWidth : Int) (CardHeight : Int)
      = { c with number := k } := by
    obtain ⟨n, m, w, h⟩ := c
    simp only at hcw hch
    simp [hcw, hch]
  rw [hcard]
  have hval2 : ({ c with number := k } : Card).validate = .ok () := hcval
  rw [hval2]
  simp only []
  rw [show (c.matrix.map (fun row =>
      row.map (fun v => if v = 1 then '#' else '.')) ++ rest).drop CardHeight
      = rest from by
    rw [show CardHeight
        = (c.matrix.map (fun row => row.map (fun v => if v = 1 then '#' else '.'))).length
        from by simp [hmlen]]
    exact List.drop_left _ _]

/-- The line list of a sequence of exported card blocks: blocks separated
by one blank line (matching `expandB`'s separators). -/
def interBlocks : List Card → List GoStr
  | [] => []
  | [c] => blockLines NewTextExporter c
  | c :: cs => blockLines NewTextExporter c ++ [[]] ++ interBlocks cs

theorem intToDec_chars (i : Int) : ∀ ch ∈ intToDec i, ch = '-' ∨ ch.isDigit = true := by
  intro ch hch
  rw [intToDec] at hch
  by_cases h : i < 0
  · rw [if_pos h] at hch
    rcases List.mem_cons.mp hch with rfl | hch
    · exact Or.inl rfl
    · exact Or.inr (natToDec_digits _ ch hch)
  · rw [if_neg h] at hch
    exact Or.inr (natToDec_digits _ ch hch)

theorem intToDec_no_nl (i : Int) : ∀ ch ∈ intToDec i, ch ≠ '\n' := by
  intro ch hch
  rcases intToDec_chars i ch hch with rfl | hd
  · decide
  · exact (isDigit_char_facts ch hd).2.2.2.1

theorem natToDec_no_nl (n : Nat) : ∀ ch ∈ natToDec n, ch ≠ '\n' := by
  intro ch hch
  exact (isDigit_char_facts ch (natToDec_digits n ch hch)).2.2.2.1

theorem blockLines_no_nl (c : Card) :
    ∀ l ∈ blockLines NewTextExporter c, ∀ ch ∈ l, ch ≠ '\n' := by
  intro l hl ch hch
  rw [blockLines] at hl
  rcases List.mem_cons.mp hl with rfl | hl
  · rcases List.mem_append.mp hch with h1 | h2
    · rcases List.mem_append.mp h1 with h3 | h4
      · have h5 : ch ∈ (['C', 'a', 'r', 'd', ' '] : GoStr) := h3
        fin_cases h5 <;> decide
      · exact intToDec_no_nl c.number ch h4
    · simp at h2
      subst h2
      decide
  · obtain ⟨row, _, rfl⟩ := List.mem_map.mp hl
    obtain ⟨v, _, rfl⟩ := List.mem_map.mp hch
    by_cases hv : v = 1 <;> simp [hv] <;> decide

/-- `expandB` splits as the block line list: each exported block is its
lines, with blank separator lines between blocks. -/
theorem splitNl_expandB :
    ∀ (cs : List Card) (r : GoStr), cs ≠ [] → (∀ c ∈ cs, GoodCard c) →
      splitNl (expandB NewTextExporter cs ++ r) = interBlocks cs ++ splitNl r := by
  intro cs
  induction cs with
  | nil => intro r h _; exact absurd rfl h
  | cons c cs ih =>
    intro r _ hgood
    obtain ⟨hcw, hch, hcval⟩ := hgood c (by simp)
    have hv := (validate_ok_iff c).mp hcval
    have hmlen : c.matrix.length = c.height.toNat := by
      have h3 := hv.2.2.1
      omega
    have hrows : ∀ row ∈ c.matrix, row.length = c.width.toNat := by
      intro row hrow
      have h3 := hv.2.2.2.1 row hrow
      omega
    have hbody := exportCardBody_eq NewTextExporter c hmlen hrows
    have hblock : ("Card ".data ++ intToDec c.number ++ [':', '\n'])
        ++ exportCardBody NewTextExporter c = linesOf (blockLines NewTextExporter c) := by
      rw [hbody, blockLines]
      simp [linesOf, List.append_assoc]
    cases cs with
    | nil =>
      rw [expandB, hblock, splitNl_linesOf _ _ (blockLines_no_nl c), interBlocks]
    | cons c' cs' =>
      rw [expandB, interBlocks]
      have hassoc : ((("Card ".data ++ intToDec c.number ++ [':', '\n'])
            ++ exportCardBody NewTextExporter c
            ++ ['\n'] ++ expandB NewTextExporter (c' :: cs')) ++ r)
          = linesOf (blockLines NewTextExporter c ++ [[]])
            ++ (expandB NewTextExporter (c' :: cs') ++ r) := by
        rw [linesOf_append, ← hblock]
        simp [linesOf, List.append_assoc]
      rw [hassoc, splitNl_linesOf _ _ (by
        intro l hl
        rcases List.mem_append.mp hl with h1 | h2
        · exact blockLines_no_nl c l h1
        · simp at h2
          subst h2
          simp)]
      rw [ih r (List.cons_ne_nil c' cs') (fun c'' hc'' => hgood c'' (by simp [hc'']))]
      simp [List.append_assoc]
      all_goals simp

/-- The parse loop over a sequence of blocks appends the cards renumbered
from the running counter and continues after them. -/
theorem parseLoop_interBlocks :
    ∀ (cs : List Card) (rest : List GoStr) (li : Nat) (acc : List Card) (k total : Int),
      cs ≠ [] → (∀ c ∈ cs, GoodCard c) → (∀ c ∈ cs, 0 ≤ c.number) →
      ∃ li', parseLoop total (interBlocks cs ++ rest) li acc k
        = parseLoop total rest li' (acc ++ renumber k cs) (k + (cs.length : Int)) := by
  intro cs
  induction cs with
  | nil => intro rest li acc k total h; exact absurd rfl h
  | cons c cs ih =>
    intro rest li acc k total _ hgood hnum
    cases cs with
    | nil =>
      refine ⟨li + 1 + CardHeight, ?_⟩
      rw [interBlocks]
      rw [parseLoop_block total c rest li acc k (hgood c (by simp)) (hnum c (by simp))]
      rw [show renumber k [c] = [{ c with number := k }] from rfl]
      norm_num
    | cons c' cs' =>
      rw [interBlocks]
      rw [List.append_assoc, List.append_assoc]
      rw [parseLoop_block total c _ li acc k (hgood c (by simp)) (hnum c (by simp))]
      rw [show ([[]] : List GoStr) ++ (interBlocks (c' :: cs') ++ rest)
          = [] :: (interBlocks (c' :: cs') ++ rest) from rfl]
      rw [parseLoop_blank total [] _ _ _ _ rfl]
      obtain ⟨li', hli'⟩ := ih rest (li + 1 + CardHeight + 1) (acc ++ [{ c with number := k }])
        (k + 1) total (List.cons_ne_nil c' cs')
        (fun c'' hc'' => hgood c'' (by simp [hc'']))
        (fun c'' hc'' => hnum c'' (by simp [hc'']))
      refine ⟨li', ?_⟩
      rw [hli']
      rw [show (acc ++ [{ c with number := k }]) ++ renumber (k + 1) (c' :: cs')
          = acc ++ renumber k (c :: c' :: cs') from by
        rw [List.append_assoc]
        rfl]
      rw [show k + 1 + ((c' :: cs').length : Int) = k + ((c :: c' :: cs').length : Int) from by
        push_cast [List.length_cons]
        ring]
      all_goals simp


theorem getD_four0 {t : Type} (a b c d : t) (X : List t) (dflt : t) :
    (a :: b :: c :: d :: X).getD 0 dflt = a := rfl

theorem getD_four1 {t : Type} (a b c d : t) (X : List t) (dflt : t) :
    (a :: b :: c :: d :: X).getD 1 dflt = b := rfl

theorem getD_four2 {t : Type} (a b c d : t) (X : List t) (dflt : t) :
    (a :: b :: c :: d :: X).getD 2 dflt = c := rfl

theorem getD_four3 {t : Type} (a b c d : t) (X : List t) (dflt : t) :
    (a :: b :: c :: d :: X).getD 3 dflt = d := rfl

theorem drop_four {t : Type} (a b c d : t) (X : List t) :
    (a :: b :: c :: d :: X).drop 4 = X := rfl

theorem length_four {t : Type} (a b c d : t) (X : List t) :
    (a :: b :: c :: d :: X).length = X.length + 4 := by simp

/-- The canonical output of the default text exporter on a valid card list. -/
def exportContent (cards : List Card) : GoStr :=
  linesOf [['T', 'i', 't', 'l', 'e', ':', ' ']
        ++ ['U', 'n', 't', 'i', 't', 'l', 'e', 'd', ' ', 'P', 'a', 't', 't', 'e', 'r', 'n'],
      ['C', 'a', 'r', 'd', 's', ':', ' '] ++ natToDec cards.length,
      ['H', 'o', 'l', 'e', 's', ' ', 'p', 'e', 'r', ' ', 'c', 'a', 'r', 'd', ':', ' ']
        ++ intToDec 208, []]
    ++ expandB NewTextExporter cards

/-- On a non-empty valid 26×8 card list, the default exporter writes
exactly `exportContent`. -/
theorem textExportCards_content (cards : List Card) (hne : cards ≠ [])
    (hgood : ∀ c ∈ cards, GoodCard c) :
    textExportCards NewTextExporter cards = .ok (exportContent cards) := by
  have hval : ∀ c ∈ cards, c.validate = .ok () := fun c hc => (hgood c hc).2.2
  have hw26 : (cards.headD default).width = (CardWidth : Int) :=
    (hgood _ (headD_mem cards default hne)).1
  have hh8 : (cards.headD default).height = (CardHeight : Int) :=
    (hgood _ (headD_mem cards default hne)).2.1
  rw [textExportCards_ok NewTextExporter cards hne hval]
  rw [hw26, hh8]
  rw [if_pos (show NewTextExporter.title = [] from rfl)]
  rw [show ((CardWidth : Int) * (CardHeight : Int)) = (208 : Int) from by
    norm_num [CardWidth, CardHeight]]
  rw [show ((['T', 'i', 't', 'l', 'e', ':', ' ']
          ++ ['U', 'n', 't', 'i', 't', 'l', 'e', 'd', ' ', 'P', 'a', 't', 't', 'e', 'r', 'n'])
        ++ ['\n']
        ++ (['C', 'a', 'r', 'd', 's', ':', ' '] ++ natToDec cards.length ++ ['\n'])
        ++ (['H', 'o', 'l', 'e', 's', ' ', 'p', 'e', 'r', ' ', 'c', 'a', 'r', 'd', ':', ' ']
            ++ intToDec 208 ++ ['\n'])
        ++ ['\n']
        ++ expandB NewTextExporter cards)
      = exportContent cards from by
    simp [exportContent, linesOf, List.append_assoc]]

/-- Parsing `exportContent cards ++ extra`: the header is consumed, the
blocks yield the cards renumbered from 1, and the parse loop continues on
the lines of `extra` (the exported content ends with a newline, so `extra`
starts at a fresh line). -/
theorem parse_exportContent_append (cards : List Card) (hne : cards ≠ [])
    (hgood : ∀ c ∈ cards, GoodCard c) (hnums : ∀ c ∈ cards, 0 ≤ c.number) (extra : GoStr) :
    ∃ li', parse (exportContent cards ++ extra)
      = match parseLoop ((cards.length : Nat) : Int) (splitNl extra) li'
          (renumber 1 cards) (1 + (cards.length : Int)) with
        | .error e => .error e
        | .ok cs => .ok ⟨"Untitled Pattern".data, cs, ((cards.length : Nat) : Int),
            ((208 : Nat) : Int)⟩ := by
  have hsplit : splitNl (exportContent cards ++ extra)
      = (['T', 'i', 't', 'l', 'e', ':', ' ']
          ++ ['U', 'n', 't', 'i', 't', 'l', 'e', 'd', ' ', 'P', 'a', 't', 't', 'e', 'r', 'n'])
        :: (['C', 'a', 'r', 'd', 's', ':', ' '] ++ natToDec cards.length)
        :: (['H', 'o', 'l', 'e', 's', ' ', 'p', 'e', 'r', ' ', 'c', 'a', 'r', 'd', ':', ' ']
          ++ intToDec 208)
        :: ([] : GoStr)
        :: (interBlocks cards ++ splitNl extra) := by
    rw [exportContent, List.append_assoc]
    rw [splitNl_linesOf _ _ ?hnl]
    case hnl =>
      intro l hl ch hch
      simp only [List.mem_cons] at hl
      rcases hl with rfl | rfl | rfl | rfl | hl
      · rcases List.mem_append.mp hch with h1 | h2
        · fin_cases h1 <;> decide
        · fin_cases h2 <;> decide
      · rcases List.mem_append.mp hch with h1 | h2
        · fin_cases h1 <;> decide
        · exact natToDec_no_nl _ ch h2
      · rcases List.mem_append.mp hch with h1 | h2
        · fin_cases h1 <;> decide
        · exact intToDec_no_nl _ ch h2
      · simp at hch
      · simp at hl
    rw [splitNl_expandB cards extra hne hgood]
    simp [List.append_assoc]
  rw [parse]
  simp only [hsplit]
  rw [if_neg (by simp [length_four])]
  rw [if_neg (by
    simp only [getD_four0]
    simp [isPrefixOf_self_append])]
  rw [if_neg (by
    simp only [getD_four1]
    simp [isPrefixOf_self_append])]
  simp only [getD_four0, getD_four1, getD_four2, getD_four3, drop_four]
  rw [show List.drop 7 (['C', 'a', 'r', 'd', 's', ':', ' '] ++ natToDec cards.length)
      = natToDec cards.length from rfl]
  rw [parseGoInt_natToDec cards.length]
  simp only []
  rw [if_neg (by simp [isPrefixOf_self_append])]
  rw [show List.drop 16 (['H', 'o', 'l', 'e', 's', ' ', 'p', 'e', 'r', ' ', 'c', 'a', 'r', 'd',
      ':', ' '] ++ intToDec 208) = intToDec 208 from rfl]
  rw [intToDec_nonneg 208 (by norm_num), show ((208 : Int)).toNat = 208 from rfl,
    parseGoInt_natToDec 208]
  simp only []
  rw [if_pos (by
    constructor
    · simp [length_four]
    · rfl)]
  rw [drop_four]
  obtain ⟨li', hloop⟩ := parseLoop_interBlocks cards (splitNl extra) 4 [] 1
    ((cards.length : Nat) : Int) hne hgood hnums
  rw [hloop]
  rw [show ([] : List Card) ++ renumber 1 cards = renumber 1 cards from by simp]
  refine ⟨li', ?_⟩
  rw [show List.drop 7 (['T', 'i', 't', 'l', 'e', ':', ' ']
      ++ ['U', 'n', 't', 'i', 't', 'l', 'e', 'd', ' ', 'P', 'a', 't', 't', 'e', 'r', 'n'])
      = ['U', 'n', 't', 'i', 't', 'l', 'e', 'd', ' ', 'P', 'a', 't', 't', 'e', 'r', 'n'] from rfl]

/-- NumberedFrom implies all numbers are at least the base. -/
theorem numberedFrom_nonneg (k : Int) (cs : List Card) (hk : 0 ≤ k)
    (h : NumberedFrom k cs) : ∀ c ∈ cs, 0 ≤ c.number := by
  induction cs generalizing k with
  | nil => intro c hc; simp at hc
  | cons c cs ih =>
    intro c' hc'
    obtain ⟨h1, h2⟩ := h
    rcases List.mem_cons.mp hc' with rfl | hc'
    · omega
    · exact ih (k + 1) (by omega) h2 c' hc'

/-- Whenever the parse loop returns successfully, the number of parsed
cards equals the declared total (text.go:220-222 or the break at 159-161). -/
theorem parseLoop_ok_length (total : Int) :
    ∀ (n : Nat) (lines : List GoStr) (li : Nat) (acc : List Card) (k : Int)
      (out : List Card), lines.length ≤ n →
      parseLoop total lines li acc k = .ok out → (out.length : Int) = total := by
  intro n
  induction n with
  | zero =>
    intro lines li acc k out hlen hok
    have hnil : lines = [] := List.length_eq_zero.mp (by omega)
    subst hnil
    rw [parseLoop_nil] at hok
    by_cases h : (acc.length : Int) ≠ total
    · rw [if_pos h] at hok
      exact absurd hok (by simp)
    · rw [if_neg h] at hok
      obtain rfl : acc = out := by simpa using hok
      exact not_not.mp h
  | succ n ih =>
    intro lines li acc k out hlen hok
    cases lines with
    | nil =>
      rw [parseLoop_nil] at hok
      by_cases h : (acc.length : Int) ≠ total
      · rw [if_pos h] at hok
        exact absurd hok (by simp)
      · rw [if_neg h] at hok
        obtain rfl : acc = out := by simpa using hok
        exact not_not.mp h
    | cons l rest =>
      simp only [parseLoop] at hok
      by_cases hb : isBlank l = true
      · rw [if_pos hb] at hok
        exact ih rest (li + 1) acc k out (by simp at hlen; omega) hok
      · rw [if_neg hb] at hok
        by_cases hp : ((['C', 'a', 'r', 'd', ' '] : GoStr).isPrefixOf l) = true
        · rw [if_neg (by simp [hp])] at hok
          rcases hh : parseCardHeaderNum (l.drop 5) with e | v
          · rw [hh] at hok
            exact absurd hok (by simp)
          · rw [hh] at hok
            simp only [] at hok
            rcases hr : parseRows v 0 CardHeight rest with e | mat
            · rw [hr] at hok
              exact absurd hok (by simp)
            · rw [hr] at hok
              simp only [] at hok
              rcases hv : (Card.mk k mat (CardWidth : Int) (CardHeight : Int)).validate
                  with e | u
              · rw [hv] at hok
                exact absurd hok (by simp)
              · obtain ⟨⟩ := u
                rw [hv] at hok
                simp only [] at hok
                refine ih (rest.drop CardHeight) _ _ _ out ?_ hok
                have := List.length_drop CardHeight rest
                simp at hlen
                omega
        · rw [if_pos (by simp [hp])] at hok
          by_cases ha : (acc.length : Int) = total
          · rw [if_pos ha] at hok
            obtain rfl : acc = out := by simpa using hok
            exact ha
          · rw [if_neg ha] at hok
            exact absurd hok (by simp)

/-- Whenever `Parse` succeeds, the returned cards number exactly the
declared `Cards:` total. -/
theorem parse_ok_count (content : GoStr) (r : ParseResult)
    (h : parse content = .ok r) : (r.cards.length : Int) = r.totalCards := by
  rw [parse] at h
  simp only [] at h
  by_cases h1 : (splitNl content).length < 4
  · rw [if_pos h1] at h
    exact absurd h (by simp)
  · rw [if_neg h1] at h
    by_cases h2 : ¬ ("Title: ".data.isPrefixOf ((splitNl content).getD 0 []))
    · rw [if_pos h2] at h
      exact absurd h (by simp)
    · rw [if_neg h2] at h
      by_cases h3 : ¬ ("Cards: ".data.isPrefixOf ((splitNl content).getD 1 []))
      · rw [if_pos h3] at h
        exact absurd h (by simp)
      · rw [if_neg h3] at h
        rcases h4 : parseGoInt (((splitNl content).getD 1 []).drop 7) with e | totalCards
        · rw [h4] at h
          exact absurd h (by simp)
        · rw [h4] at h
          simp only [] at h
          by_cases h5 : ¬ ("Holes per card: ".data.isPrefixOf ((splitNl content).getD 2 []))
          · rw [if_pos h5] at h
            exact absurd h (by simp)
          · rw [if_neg h5] at h
            rcases h6 : parseGoInt (((splitNl content).getD 2 []).drop 16) with e | holes
            · rw [h6] at h
              exact absurd h (by simp)
            · rw [h6] at h
              simp only [] at h
              rcases h7 : parseLoop totalCards
                  ((splitNl content).drop
                    (if 3 < (splitNl content).length ∧ isBlank ((splitNl content).getD 3 [])
                      then 4 else 3))
                  (if 3 < (splitNl content).length ∧ isBlank ((splitNl content).getD 3 [])
                    then 4 else 3) [] 1 with e | cs
              · rw [h7] at h
                exact absurd h (by simp)
              · rw [h7] at h
                simp only [] at h
                obtain rfl : (⟨((splitNl content).getD 0 []).drop 7, cs, totalCards,
                    holes⟩ : ParseResult) = r := by
                  simpa using h
                simpa using parseLoop_ok_length totalCards _ _ _ _ _ cs (le_refl _) h7

/-! ### Claim C1: text export/parse round trip -/

/-- C1 (amended): for a non-empty list of valid 26×8 cards whose numbers are
already sequential starting at 1, exporting with the default text exporter and
parsing the result returns exactly the same cards, with the declared count and
208 holes per card. (The parser renumbers cards with its own running counter,
so numbering is only preserved when it is already 1..N; see the
counterexample.) -/
theorem text_round_trip (cards : List Card) (hne : cards ≠ [])
    (hgood : ∀ c ∈ cards, GoodCard c) (hnum : NumberedFrom 1 cards) :
    textRoundTrip cards = .ok ⟨"Untitled Pattern".data, cards,
      ((cards.length : Nat) : Int), ((208 : Nat) : Int)⟩ := by
  have hnums : ∀ c ∈ cards, 0 ≤ c.number :=
    numberedFrom_nonneg 1 cards (by norm_num) hnum
  rw [textRoundTrip, textExportCards_content cards hne hgood]
  simp only []
  obtain ⟨li', hp⟩ := parse_exportContent_append cards hne hgood hnums []
  rw [List.append_nil] at hp
  rw [show splitNl ([] : GoStr) = [[]] from rfl] at hp
  rw [parseLoop_blank _ [] _ _ _ _ (show isBlank [] = true from rfl)] at hp
  rw [parseLoop_nil] at hp
  rw [if_neg (by simp [length_renumber])] at hp
  simp only [] at hp
  rw [hp, renumber_eq_self 1 cards hnum]

/-- C1 counterexample: a single valid 26×8 card numbered 5 is renumbered to 1
by the parser, so `parse (export cards)` differs from `cards` and the claimed
round-trip law fails for valid same-dimension card lists in general. -/
theorem text_round_trip_claim_counterexample :
    (Card.mk 5 (List.replicate 8 (List.replicate 26 0)) 26 8).validate = .ok () ∧
    textRoundTrip [Card.mk 5 (List.replicate 8 (List.replicate 26 0)) 26 8]
      = .ok ⟨"Untitled Pattern".data,
          [Card.mk 1 (List.replicate 8 (List.replicate 26 0)) 26 8],
          ((1 : Nat) : Int), ((208 : Nat) : Int)⟩ ∧
    [Card.mk 1 (List.replicate 8 (List.replicate 26 0)) 26 8]
      ≠ [Card.mk 5 (List.replicate 8 (List.replicate 26 0)) 26 8] := by
  have hgood : ∀ c ∈ [Card.mk 5 (List.replicate 8 (List.replicate 26 0)) 26 8],
      GoodCard c := by
    intro c hc
    obtain rfl := List.mem_singleton.mp hc
    exact ⟨rfl, rfl, by decide⟩
  have hnums : ∀ c ∈ [Card.mk 5 (List.replicate 8 (List.replicate 26 0)) 26 8],
      0 ≤ c.number := by
    intro c hc
    obtain rfl := List.mem_singleton.mp hc
    norm_num
  refine ⟨by decide, ?_, by decide⟩
  rw [textRoundTrip, textExportCards_content _ (by simp) hgood]
  simp only []
  obtain ⟨li', hp⟩ := parse_exportContent_append _ (by simp) hgood hnums []
  rw [List.append_nil] at hp
  rw [show splitNl ([] : GoStr) = [[]] from rfl] at hp
  rw [parseLoop_blank _ [] _ _ _ _ (show isBlank [] = true from rfl)] at hp
  rw [parseLoop_nil] at hp
  rw [if_neg (by simp [length_renumber])] at hp
  simp only [] at hp
  rw [hp]
  rfl

/-- C1 witness: the amended round trip evaluated on a concrete singleton list. -/
theorem text_round_trip_witness :
    textRoundTrip [zeroCard] = .ok ⟨"Untitled Pattern".data, [zeroCard],
      (([zeroCard].length : Nat) : Int), ((208 : Nat) : Int)⟩ :=
  text_round_trip [zeroCard] (by simp)
    (by
      intro c hc
      obtain rfl := List.mem_singleton.mp hc
      exact ⟨rfl, rfl, by decide⟩)
    ⟨rfl, trivial⟩

/-! ### Claim C5: stopping and card-count errors -/

/-- C5 (amended): once the declared count is reached, the parser stops only
upon meeting a non-blank line that does not start with `Card ` (it does not
stop merely because the count is reached; see the counterexample), and every
successful parse returns exactly as many cards as the declared `Cards:`
total — in particular fewer card blocks than declared is an error. -/
theorem parser_stop_and_count :
    (∀ (cards : List Card) (g : GoStr), cards ≠ [] → (∀ c ∈ cards, GoodCard c) →
      NumberedFrom 1 cards → isBlank g = false →
      "Card ".data.isPrefixOf g = false → (∀ ch ∈ g, ch ≠ '\n') →
      parse (exportContent cards ++ '\n' :: g)
        = .ok ⟨"Untitled Pattern".data, cards, ((cards.length : Nat) : Int),
            ((208 : Nat) : Int)⟩) ∧
    (∀ (content : GoStr) (r : ParseResult),
      parse content = .ok r → (r.cards.length : Int) = r.totalCards) := by
  constructor
  · intro cards g hne hgood hnum hblank hpre hnl
    have hnums : ∀ c ∈ cards, 0 ≤ c.number :=
      numberedFrom_nonneg 1 cards (by norm_num) hnum
    obtain ⟨li', hp⟩ := parse_exportContent_append cards hne hgood hnums ('\n' :: g)
    rw [show splitNl ('\n' :: g) = [] :: splitNl g from rfl] at hp
    rw [splitNl_no_nl g hnl] at hp
    rw [parseLoop_blank _ [] _ _ _ _ (show isBlank [] = true from rfl)] at hp
    rw [parseLoop_stop _ g [] _ _ _ hblank hpre (by rw [length_renumber])] at hp
    simp only [] at hp
    rw [hp, renumber_eq_self 1 cards hnum]
  · exact fun content r h => parse_ok_count content r h

/-- C5 counterexample: with `Cards: 1` declared and one card already parsed,
the parser does not stop before a following `Card 2:` block — it consumes it
and then fails the final count check, instead of stopping at the declared
count as the claim states. -/
theorem parser_stop_claim_counterexample :
    parse (exportContent [zeroCard]
        ++ expandB NewTextExporter [Card.mk 2 (List.replicate 8 (List.replicate 26 0)) 26 8])
      = .error "expected 1 cards but found 2" := by
  have hgood1 : ∀ c ∈ [zeroCard], GoodCard c := by
    intro c hc
    obtain rfl := List.mem_singleton.mp hc
    exact ⟨rfl, rfl, by decide⟩
  have hnums : ∀ c ∈ [zeroCard], 0 ≤ c.number := by
    intro c hc
    obtain rfl := List.mem_singleton.mp hc
    decide
  have hgood2 : ∀ c ∈ [Card.mk 2 (List.replicate 8 (List.replicate 26 0)) 26 8],
      GoodCard c := by
    intro c hc
    obtain rfl := List.mem_singleton.mp hc
    exact ⟨rfl, rfl, by decide⟩
  obtain ⟨li', hp⟩ := parse_exportContent_append [zeroCard] (by simp) hgood1 hnums
    (expandB NewTextExporter [Card.mk 2 (List.replicate 8 (List.replicate 26 0)) 26 8])
  have hs2 := splitNl_expandB
    [Card.mk 2 (List.replicate 8 (List.replicate 26 0)) 26 8] [] (by simp) hgood2
  rw [List.append_nil] at hs2
  rw [show splitNl ([] : GoStr) = [[]] from rfl] at hs2
  rw [show interBlocks [Card.mk 2 (List.replicate 8 (List.replicate 26 0)) 26 8]
      = blockLines NewTextExporter (Card.mk 2 (List.replicate 8 (List.replicate 26 0)) 26 8)
      from rfl] at hs2
  rw [hs2] at hp
  rw [parseLoop_block _ _ [[]] _ _ _
    (hgood2 _ (by simp)) (by norm_num)] at hp
  rw [parseLoop_blank _ [] _ _ _ _ (show isBlank [] = true from rfl)] at hp
  rw [parseLoop_nil] at hp
  rw [if_pos (by simp [length_renumber])] at hp
  simp only [] at hp
  rw [hp]
  rfl

/-- C5 witness: the amended stopping rule evaluated on a concrete card list
followed by a concrete garbage line. -/
theorem parser_stop_and_count_witness :
    parse (exportContent [zeroCard] ++ '\n' :: ['X'])
      = .ok ⟨"Untitled Pattern".data, [zeroCard], (([zeroCard].length : Nat) : Int),
          ((208 : Nat) : Int)⟩ :=
  parser_stop_and_count.1 [zeroCard] ['X'] (by simp)
    (by
      intro c hc
      obtain rfl := List.mem_singleton.mp hc
      exact ⟨rfl, rfl, by decide⟩)
    ⟨rfl, trivial⟩ (by decide) (by decide) (by decide)

/-! ### Claim C8: row width and character handling -/

theorem parseRowChars_map (num : Int) (row1 : Nat) :
    ∀ (line : GoStr) (col : Nat),
      (∀ ch ∈ line, ch = '#' ∨ ch = 'O' ∨ ch = 'o' ∨ ch = '.') →
      parseRowChars num row1 col line
        = .ok (line.map (fun ch => if ch = '.' then (0 : Int) else 1)) := by
  intro line
  induction line with
  | nil => intro col h; rfl
  | cons ch rest ih =>
    intro col h
    have hrest := ih (col + 1) (fun c hc => h c (by simp [hc]))
    rcases h ch (by simp) with rfl | rfl | rfl | rfl
    · simp only [parseRowChars, List.map_cons]
      rw [if_pos (by tauto), hrest]
      simp
    · simp only [parseRowChars, List.map_cons]
      rw [if_pos (by tauto), hrest]
      simp
    · simp only [parseRowChars, List.map_cons]
      rw [if_pos (by tauto), hrest]
      simp
    · simp only [parseRowChars, List.map_cons]
      rw [if_neg (by decide), if_pos (by tauto), hrest]
      simp

theorem parseRowChars_err (num : Int) (row1 : Nat) :
    ∀ (pre : GoStr) (ch : Char) (post : GoStr) (col : Nat),
      (∀ c ∈ pre, c = '#' ∨ c = 'O' ∨ c = 'o' ∨ c = '.') →
      ¬ (ch = '#' ∨ ch = 'O' ∨ ch = 'o' ∨ ch = '.') →
      parseRowChars num row1 col (pre ++ ch :: post)
        = .error ("invalid character '" ++ toString ch ++ "' in card " ++ toString num
            ++ " row " ++ toString row1 ++ " col " ++ toString (col + pre.length + 1)
            ++ " (expected #, O, or .)") := by
  intro pre
  induction pre with
  | nil =>
    intro ch post col hpre hch
    simp only [List.nil_append, parseRowChars]
    rw [if_neg (fun h => hch (by tauto)), if_neg (fun h => hch (by tauto))]
    simp
  | cons c pre ih =>
    intro ch post col hpre hch
    have ihr := ih ch post (col + 1) (fun d hd => hpre d (by simp [hd])) hch
    rcases hpre c (by simp) with rfl | rfl | rfl | rfl
    · simp only [List.cons_append, parseRowChars, List.append_eq]
      rw [if_pos (by tauto), ihr]
      simp only [List.length_cons]
      rw [show col + 1 + pre.length + 1 = col + (pre.length + 1) + 1 from by omega]
    · simp only [List.cons_append, parseRowChars, List.append_eq]
      rw [if_pos (by tauto), ihr]
      simp only [List.length_cons]
      rw [show col + 1 + pre.length + 1 = col + (pre.length + 1) + 1 from by omega]
    · simp only [List.cons_append, parseRowChars, List.append_eq]
      rw [if_pos (by tauto), ihr]
      simp only [List.length_cons]
      rw [show col + 1 + pre.length + 1 = col + (pre.length + 1) + 1 from by omega]
    · simp only [List.cons_append, parseRowChars, List.append_eq]
      rw [if_neg (by decide), if_pos (by tauto), ihr]
      simp only [List.length_cons]
      rw [show col + 1 + pre.length + 1 = col + (pre.length + 1) + 1 from by omega]

/-- C8: a row whose length differs from 26 is rejected with an error naming
the card and the row; in a row of the right width the characters `#`, `O`,
`o` map to 1 and `.` maps to 0; any other character is rejected with an error
naming the card, the row, and the 1-based column of the first offender; and
the block-row loop surfaces such a row error as the parse error. -/
theorem parser_row_spec :
    (∀ (num : Int) (row1 : Nat) (line : GoStr), line.length ≠ CardWidth →
      parseCardRow num row1 line
        = .error ("card " ++ toString num ++ " row " ++ toString row1
            ++ " has incorrect width: expected " ++ toString CardWidth
            ++ ", got " ++ toString line.length)) ∧
    (∀ (num : Int) (row1 : Nat) (line : GoStr), line.length = CardWidth →
      (∀ ch ∈ line, ch = '#' ∨ ch = 'O' ∨ ch = 'o' ∨ ch = '.') →
      parseCardRow num row1 line
        = .ok (line.map (fun ch => if ch = '.' then (0 : Int) else 1))) ∧
    (∀ (num : Int) (row1 : Nat) (pre : GoStr) (ch : Char) (post : GoStr),
      (∀ c ∈ pre, c = '#' ∨ c = 'O' ∨ c = 'o' ∨ c = '.') →
      ¬ (ch = '#' ∨ ch = 'O' ∨ ch = 'o' ∨ ch = '.') →
      (pre ++ ch :: post).length = CardWidth →
      parseCardRow num row1 (pre ++ ch :: post)
        = .error ("invalid character '" ++ toString ch ++ "' in card " ++ toString num
            ++ " row " ++ toString row1 ++ " col " ++ toString (pre.length + 1)
            ++ " (expected #, O, or .)")) ∧
    (∀ (num : Int) (row rem : Nat) (l : GoStr) (ls : List GoStr) (e : String),
      parseCardRow num (row + 1) l = .error e →
      parseRows num row (rem + 1) (l :: ls) = .error e) := by
  refine ⟨?_, ?_, ?_, ?_⟩
  · intro num row1 line hlen
    rw [parseCardRow, if_pos hlen]
  · intro num row1 line hlen hchars
    rw [parseCardRow, if_neg (by simp [hlen])]
    exact parseRowChars_map num row1 line 0 hchars
  · intro num row1 pre ch post hpre hch hlen
    rw [parseCardRow, if_neg (by simp [hlen])]
    rw [parseRowChars_err num row1 pre ch post 0 hpre hch]
    rw [show 0 + pre.length + 1 = pre.length + 1 from by omega]
  · intro num row rem l ls e h
    simp only [parseRows]
    rw [h]

/-- C8 witness: the row rules evaluated at concrete rows, including the
spec's 25-character-row scenario. -/
theorem parser_row_spec_witness :
    parseCardRow 3 1 (List.replicate 25 '.')
      = .error "card 3 row 1 has incorrect width: expected 26, got 25" ∧
    parseCardRow 3 1 ('#' :: 'O' :: 'o' :: List.replicate 23 '.')
      = .ok (1 :: 1 :: 1 :: List.replicate 23 0) ∧
    parseCardRow 3 2 ('.' :: '.' :: 'x' :: List.replicate 23 '#')
      = .error "invalid character 'x' in card 3 row 2 col 3 (expected #, O, or .)" ∧
    parseRows 3 0 7 [List.replicate 25 '.']
      = .error "card 3 row 1 has incorrect width: expected 26, got 25" :=
  ⟨(parser_row_spec.1 3 1 (List.replicate 25 '.') (by decide)).trans (by decide),
    (parser_row_spec.2.1 3 1 ('#' :: 'O' :: 'o' :: List.replicate 23 '.')
      (by decide) (by decide)).trans (by decide),
    (parser_row_spec.2.2.1 3 2 ['.', '.'] 'x' (List.replicate 23 '#')
      (by decide) (by decide) (by decide)).trans (by decide),
    (parser_row_spec.2.2.2 3 0 6 (List.replicate 25 '.') [] _
      (parser_row_spec.1 3 1 (List.replicate 25 '.') (by decide))).trans (by decide)⟩

/-! ### Claim C6: exporter error handling -/

/-- Model of `SVGExporter.ExportCards` (svg.go:169-221): the only failure path
is an empty card list (svg.go:170-172); otherwise the exporter emits one
`<g id="card-N">` group per card, in order, and reports success. The float
geometry inside the groups is abstracted away; the result records the card
number of each emitted group. The function never calls `Validate` on any
card. -/
def svgExportCards (cards : List Card) : Except String (List Int) :=
  if cards.length = 0 then .error "no cards to export"
  else .ok (cards.map (fun c => c.number))

/-- C6 (amended): exporting an empty card sequence errors in both exporters,
and an invalid card makes the text exporter error; but the SVG exporter
validates nothing — on any non-empty list it succeeds and emits one group per
card (see the counterexample), so the second half of the claim fails for the
SVG exporter. -/
theorem export_empty_and_validation :
    textExportCards NewTextExporter [] = .error "no cards to export" ∧
    svgExportCards [] = .error "no cards to export" ∧
    (∀ cards : List Card, (∃ c ∈ cards, c.validate ≠ .ok ()) →
      ∃ err, textExportCards NewTextExporter cards = .error err) ∧
    (∀ cards : List Card, cards ≠ [] →
      svgExportCards cards = .ok (cards.map (fun c => c.number))) := by
  refine ⟨rfl, rfl, fun cards h => textExportCards_error NewTextExporter cards h, ?_⟩
  intro cards hne
  rw [svgExportCards, if_neg (by simpa using fun hh => hne (List.length_eq_zero.mp hh))]

/-- C6 counterexample: a card whose cells are all 2 fails `Validate`, yet the
SVG exporter succeeds on it, emitting its group — it never validates. -/
theorem svg_export_claim_counterexample :
    (Card.mk 1 (List.replicate 8 (List.replicate 26 2)) 26 8).validate ≠ .ok () ∧
    svgExportCards [Card.mk 1 (List.replicate 8 (List.replicate 26 2)) 26 8]
      = .ok [1] :=
  ⟨by decide, rfl⟩

/-- C6 witness: the amended claim evaluated on a concrete invalid singleton
for the text exporter and a concrete valid singleton for the SVG exporter. -/
theorem export_empty_and_validation_witness :
    (∃ err, textExportCards NewTextExporter [Card.mk 1 [[2]] 1 1] = .error err) ∧
    svgExportCards [zeroCard] = .ok ([zeroCard].map (fun c => c.number)) :=
  ⟨export_empty_and_validation.2.2.1 [Card.mk 1 [[2]] 1 1]
      ⟨Card.mk 1 [[2]] 1 1, by simp, by decide⟩,
    export_empty_and_validation.2.2.2 [zeroCard] (by simp)⟩

/-! ### Claim C7: resize dimension rules (src/unnamed/part_002, `resize`)

Float64 arithmetic is modelled exactly over `ℚ`; Go's `int(x)` conversion
truncates toward zero and `math.Round` rounds half away from zero. -/

/-- Go's `int(x)` conversion on a float: truncation toward zero. -/
def goTrunc (q : ℚ) : Int := if 0 ≤ q then ⌊q⌋ else -⌊-q⌋

/-- Go's `math.Round`: round half away from zero.  Used by the dithering
quantizer, and by the spec's claimed (but not implemented) rounding rule for
resize dimensions. -/
def goRound (q : ℚ) : Int := if 0 ≤ q then ⌊q + 1 / 2⌋ else -⌊-q + 1 / 2⌋

/-- First branch of `resize` (part_002 lines 79-86): fill in a zero target
height from the aspect ratio, truncating, with a fallback of 1 when the
truncation gives 0. -/
def heightFill (srcWidth srcHeight width height : Int) : Int :=
  if height = 0 ∧ 0 < width then
    if goTrunc ((width : ℚ) * ((srcHeight : ℚ) / (srcWidth : ℚ))) = 0 then 1
    else goTrunc ((width : ℚ) * ((srcHeight : ℚ) / (srcWidth : ℚ)))
  else height

/-- Second branch of `resize` (part_002 lines 88-95): fill in a zero target
width from the possibly-updated height, truncating, fallback 1. -/
def widthFill (srcWidth srcHeight width height1 : Int) : Int :=
  if width = 0 ∧ 0 < height1 then
    if goTrunc ((height1 : ℚ) * ((srcWidth : ℚ) / (srcHeight : ℚ))) = 0 then 1
    else goTrunc ((height1 : ℚ) * ((srcWidth : ℚ) / (srcHeight : ℚ)))
  else width

/-- Dimension computation of `resize` (part_002 lines 74-105): height fill,
then width fill, then the safety fallback to a 1×1 image when either
dimension is still non-positive.  Returns (width, height) of the output. -/
def resizeDims (srcWidth srcHeight width height : Int) : Int × Int :=
  if widthFill srcWidth srcHeight width (heightFill srcWidth srcHeight width height) ≤ 0
      ∨ heightFill srcWidth srcHeight width height ≤ 0 then (1, 1)
  else (widthFill srcWidth srcHeight width (heightFill srcWidth srcHeight width height),
    heightFill srcWidth srcHeight width height)

theorem heightFill_unspec (srcW srcH W : Int) (hW : 0 < W)
    (ht : 0 ≤ goTrunc ((W : ℚ) * ((srcH : ℚ) / (srcW : ℚ)))) :
    heightFill srcW srcH W 0 = max 1 (goTrunc ((W : ℚ) * ((srcH : ℚ) / (srcW : ℚ)))) := by
  rw [heightFill, if_pos (⟨rfl, hW⟩ : (0 : Int) = 0 ∧ 0 < W)]
  by_cases h0 : goTrunc ((W : ℚ) * ((srcH : ℚ) / (srcW : ℚ))) = 0
  · rw [if_pos h0, h0]
    omega
  · rw [if_neg h0]
    omega

theorem heightFill_spec_pass (srcW srcH H : Int) (hH : H ≠ 0) :
    heightFill srcW srcH 0 H = H := by
  rw [heightFill, if_neg (fun h => hH h.1)]

theorem widthFill_pass (srcW srcH W h1 : Int) (hW : W ≠ 0) :
    widthFill srcW srcH W h1 = W := by
  rw [widthFill, if_neg (fun h => hW h.1)]

theorem widthFill_unspec (srcW srcH H : Int) (hH : 0 < H)
    (ht : 0 ≤ goTrunc ((H : ℚ) * ((srcW : ℚ) / (srcH : ℚ)))) :
    widthFill srcW srcH 0 H = max 1 (goTrunc ((H : ℚ) * ((srcW : ℚ) / (srcH : ℚ)))) := by
  rw [widthFill, if_pos (⟨rfl, hH⟩ : (0 : Int) = 0 ∧ 0 < H)]
  by_cases h0 : goTrunc ((H : ℚ) * ((srcW : ℚ) / (srcH : ℚ))) = 0
  · rw [if_pos h0, h0]
    omega
  · rw [if_neg h0]
    omega

/-- C7 (amended): with positive source dimensions, an unspecified (zero)
target height and positive target width W yield output height
`max 1 (trunc (W × srcH / srcW))` — Go's `int()` conversion truncates, it
does not round — and symmetrically for an unspecified width.  The claimed
rounding rule is refuted by the counterexample. -/
theorem resize_dims_spec (srcW srcH W H : Int) (hsw : 0 < srcW) (hsh : 0 < srcH)
    (hW : 0 < W) (hH : 0 < H) :
    (resizeDims srcW srcH W 0).2 = max 1 (goTrunc ((W : ℚ) * ((srcH : ℚ) / (srcW : ℚ)))) ∧
    (resizeDims srcW srcH W 0).1 = W ∧
    (resizeDims srcW srcH 0 H).1 = max 1 (goTrunc ((H : ℚ) * ((srcW : ℚ) / (srcH : ℚ)))) ∧
    (resizeDims srcW srcH 0 H).2 = H := by
  have hq1 : (0 : ℚ) ≤ (W : ℚ) * ((srcH : ℚ) / (srcW : ℚ)) :=
    mul_nonneg (by exact_mod_cast hW.le)
      (div_nonneg (by exact_mod_cast hsh.le) (by exact_mod_cast hsw.le))
  have hq2 : (0 : ℚ) ≤ (H : ℚ) * ((srcW : ℚ) / (srcH : ℚ)) :=
    mul_nonneg (by exact_mod_cast hH.le)
      (div_nonneg (by exact_mod_cast hsw.le) (by exact_mod_cast hsh.le))
  have ht1 : 0 ≤ goTrunc ((W : ℚ) * ((srcH : ℚ) / (srcW : ℚ))) := by
    rw [goTrunc, if_pos hq1]
    exact Int.floor_nonneg.mpr hq1
  have ht2 : 0 ≤ goTrunc ((H : ℚ) * ((srcW : ℚ) / (srcH : ℚ))) := by
    rw [goTrunc, if_pos hq2]
    exact Int.floor_nonneg.mpr hq2
  have hh1 := heightFill_unspec srcW srcH W hW ht1
  have hw1 := widthFill_pass srcW srcH W (heightFill srcW srcH W 0) (by omega)
  have hh2 := heightFill_spec_pass srcW srcH H (by omega)
  have hw2 : widthFill srcW srcH 0 (heightFill srcW srcH 0 H)
      = max 1 (goTrunc ((H : ℚ) * ((srcW : ℚ) / (srcH : ℚ)))) := by
    rw [hh2]
    exact widthFill_unspec srcW srcH H hH ht2
  have hres1 : resizeDims srcW srcH W 0
      = (W, max 1 (goTrunc ((W : ℚ) * ((srcH : ℚ) / (srcW : ℚ))))) := by
    rw [resizeDims, hw1, hh1]
    rw [if_neg (by push_neg; exact ⟨hW, by omega⟩)]
  have hres2 : resizeDims srcW srcH 0 H
      = (max 1 (goTrunc ((H : ℚ) * ((srcW : ℚ) / (srcH : ℚ)))), H) := by
    rw [resizeDims, hw2, hh2]
    rw [if_neg (by push_neg; exact ⟨by omega, hH⟩)]
  rw [hres1, hres2]
  exact ⟨rfl, rfl, rfl, rfl⟩

/-- C7 counterexample: source 2×3, target width 1, unspecified height.  The
code truncates 1 × 3/2 to height 1, while the claimed rounding rule gives
round(1.5) = 2. -/
theorem resize_round_claim_counterexample :
    (resizeDims 2 3 1 0).2 = 1 ∧
    max 1 (goRound ((1 : ℚ) * ((3 : ℚ) / (2 : ℚ)))) = 2 := by
  have htr : goTrunc (((1 : Int) : ℚ) * (((3 : Int) : ℚ) / ((2 : Int) : ℚ))) = 1 := by
    rw [goTrunc, if_pos (by norm_num)]
    rw [show ((1 : Int) : ℚ) * (((3 : Int) : ℚ) / ((2 : Int) : ℚ)) = 3 / 2 by push_cast; ring]
    rw [Int.floor_eq_iff]
    norm_num
  constructor
  · have h := (resize_dims_spec 2 3 1 1 (by norm_num) (by norm_num) (by norm_num)
      (by norm_num)).1
    rw [h, htr]
    omega
  · have hro : goRound ((1 : ℚ) * ((3 : ℚ) / (2 : ℚ))) = 2 := by
      rw [goRound, if_pos (by norm_num)]
      rw [show (1 : ℚ) * ((3 : ℚ) / (2 : ℚ)) + 1 / 2 = 2 by norm_num]
      rw [Int.floor_eq_iff]
      norm_num
    rw [hro]
    omega

/-- C7 witness: the amended truncation rule evaluated at source 2×3 with
target width 1 (height unspecified) and target height 1 (width
unspecified). -/
theorem resize_dims_spec_witness :
    (resizeDims 2 3 1 0).2
        = max 1 (goTrunc (((1 : Int) : ℚ) * (((3 : Int) : ℚ) / ((2 : Int) : ℚ)))) ∧
    (resizeDims 2 3 1 0).1 = 1 ∧
    (resizeDims 2 3 0 1).1
        = max 1 (goTrunc (((1 : Int) : ℚ) * (((2 : Int) : ℚ) / ((3 : Int) : ℚ)))) ∧
    (resizeDims 2 3 0 1).2 = 1 :=
  resize_dims_spec 2 3 1 1 (by norm_num) (by norm_num) (by norm_num) (by norm_num)

/-! ### Claim C3: Floyd–Steinberg dithering (src/unnamed/part_002,
`Processor.applyDithering`)

The working pixel grid is modelled as a total function `Nat → Nat → ℚ`
(reads outside the `width × height` window never occur because every access
in the loop body is bounds-checked exactly as in the source). -/

/-- Pointwise update of the working grid. -/
def upd (p : Nat → Nat → ℚ) (y x : Nat) (v : ℚ) : Nat → Nat → ℚ :=
  fun y' x' => if y' = y ∧ x' = x then v else p y' x'

/-- Loop body of the dithering pass for cell (y, x) (part_002 lines 144-165):
quantize to the nearest of `levels` evenly spaced values with `math.Round`,
store it, and diffuse the quantization error to the four Floyd–Steinberg
neighbors with weights 7/16, 3/16, 5/16, 1/16, skipping out-of-bounds
neighbors. -/
def ditherStep (levels : Int) (width height : Nat) (p : Nat → Nat → ℚ)
    (y x : Nat) : Nat → Nat → ℚ :=
  let oldPixel := p y x
  let newPixel := ((goRound (oldPixel * ((levels : ℚ) - 1)) : Int) : ℚ) / ((levels : ℚ) - 1)
  let p1 := upd p y x newPixel
  let err := oldPixel - newPixel
  let p2 := if x + 1 < width then upd p1 y (x + 1) (p1 y (x + 1) + err * 7 / 16) else p1
  if y + 1 < height then
    let p3 := if 0 < x then upd p2 (y + 1) (x - 1) (p2 (y + 1) (x - 1) + err * 3 / 16) else p2
    let p4 := upd p3 (y + 1) x (p3 (y + 1) x + err * 5 / 16)
    if x + 1 < width then upd p4 (y + 1) (x + 1) (p4 (y + 1) (x + 1) + err * 1 / 16) else p4
  else p2

/-- The full dithering pass as written: a row loop around a column loop
(part_002 lines 142-167). -/
def ditherPass (levels : Int) (width height : Nat) (p0 : Nat → Nat → ℚ) :
    Nat → Nat → ℚ :=
  (List.range height).foldl
    (fun p y => (List.range width).foldl (fun p x => ditherStep levels width height p y x) p)
    p0

/-- The dithering pass as the spec words it: one pass over the cells in
raster order, cell i touching row i / width, column i % width. -/
def ditherSpec (levels : Int) (width height : Nat) (p0 : Nat → Nat → ℚ) :
    Nat → Nat → ℚ :=
  (List.range (height * width)).foldl
    (fun p i => ditherStep levels width height p (i / width) (i % width)) p0

/-- `Processor.applyDithering` (part_002 lines 122-187): normalize the
`0..255` grayscale input to `0..1`, run the dithering pass, then threshold at
1/2 — darker than the threshold becomes 1 (hole), otherwise 0. -/
def applyDithering (levels : Int) (width height : Nat) (g : Nat → Nat → Nat) :
    List (List Int) :=
  let p := ditherPass levels width height (fun y x => ((g y x : ℚ)) / 255)
  (List.range height).map (fun y => (List.range width).map (fun x =>
    if p y x < 1 / 2 then (1 : Int) else 0))

theorem foldl_congr_mem {P : Type} :
    ∀ (l : List Nat) (f g : P → Nat → P) (p : P),
      (∀ x ∈ l, ∀ q, f q x = g q x) → l.foldl f p = l.foldl g p := by
  intro l
  induction l with
  | nil => intro f g p h; rfl
  | cons a l ih =>
    intro f g p h
    rw [List.foldl_cons, List.foldl_cons, h a (by simp)]
    exact ih f g _ (fun x hx q => h x (by simp [hx]) q)

theorem foldl_id {P : Type} : ∀ (l : List Nat) (p : P), l.foldl (fun p _ => p) p = p := by
  intro l
  induction l with
  | nil => intro p; rfl
  | cons a l ih => intro p; rw [List.foldl_cons]; exact ih p

/-- Raster-order flattening: one fold over `range (n*w)` indexed by div/mod
equals the nested row/column loops. -/
theorem foldl_range_mul {P : Type} (w : Nat) (step : P → Nat → Nat → P) :
    ∀ (n : Nat) (p0 : P),
      (List.range (n * w)).foldl (fun p i => step p (i / w) (i % w)) p0
        = (List.range n).foldl
            (fun p y => (List.range w).foldl (fun p x => step p y x) p) p0 := by
  intro n
  induction n with
  | zero => intro p0; rw [Nat.zero_mul]; rfl
  | succ n ih =>
    intro p0
    by_cases hw : w = 0
    · subst hw
      rw [show (n + 1) * 0 = 0 from by ring]
      rw [show (List.range 0) = [] from rfl, List.foldl_nil]
      rw [foldl_congr_mem (List.range (n + 1)) _ (fun p _ => p) p0
        (fun x hx q => by simp)]
      rw [foldl_id]
    · rw [show (n + 1) * w = n * w + w from by ring]
      rw [List.range_add, List.foldl_append, ih]
      rw [List.range_succ, List.foldl_append]
      rw [List.foldl_map]
      rw [List.foldl_cons, List.foldl_nil]
      rw [foldl_congr_mem (List.range w)
        (fun p i => step p ((n * w + i) / w) ((n * w + i) % w))
        (fun p x => step p n x) _
        (fun x hx q => by
          have hxw : x < w := List.mem_range.mp hx
          have hdiv : (n * w + x) / w = n := by
            rw [Nat.add_comm, Nat.mul_comm, Nat.add_mul_div_left x n (Nat.pos_of_ne_zero hw),
              Nat.div_eq_of_lt hxw]
            omega
          have hmod : (n * w + x) % w = x := by
            rw [Nat.add_comm, Nat.mul_comm, Nat.add_mul_mod_self_left,
              Nat.mod_eq_of_lt hxw]
          simp only [hdiv, hmod])]

/-- C3: for `levels ∈ {2,4,8}` (true of any levels value), the dithering
output has `height` rows of `width` cells, every cell is 0 or 1, and the
grid is exactly the 1/2-threshold of the raster-order
quantize-and-diffuse pass described by the spec. -/
theorem dithering_spec (levels : Int)
    (hlev : levels = 2 ∨ levels = 4 ∨ levels = 8)
    (width height : Nat) (g : Nat → Nat → Nat) :
    (applyDithering levels width height g).length = height ∧
    (∀ row ∈ applyDithering levels width height g, row.length = width) ∧
    (∀ row ∈ applyDithering levels width height g, ∀ v ∈ row, v = 0 ∨ v = 1) ∧
    applyDithering levels width height g
      = (List.range height).map (fun y => (List.range width).map (fun x =>
          if ditherSpec levels width height (fun y x => ((g y x : ℚ)) / 255) y x < 1 / 2
          then (1 : Int) else 0)) := by
  refine ⟨?_, ?_, ?_, ?_⟩
  · rw [applyDithering]
    simp
  · intro row hrow
    rw [applyDithering] at hrow
    simp only [List.mem_map, List.mem_range] at hrow
    obtain ⟨y, _, rfl⟩ := hrow
    simp
  · intro row hrow v hv
    rw [applyDithering] at hrow
    simp only [List.mem_map, List.mem_range] at hrow
    obtain ⟨y, _, rfl⟩ := hrow
    simp only [List.mem_map, List.mem_range] at hv
    obtain ⟨x, _, rfl⟩ := hv
    by_cases h : ditherPass levels width height (fun y x => ((g y x : ℚ)) / 255) y x < 1 / 2
    · rw [if_pos h]; right; rfl
    · rw [if_neg h]; left; rfl
  · rw [applyDithering]
    rw [show ditherSpec levels width height (fun y x => ((g y x : ℚ)) / 255)
        = ditherPass levels width height (fun y x => ((g y x : ℚ)) / 255) from
      foldl_range_mul width (fun p y x => ditherStep levels width height p y x) height _]

/-- C3 witness: dithering a 1×1 all-black image with 2 levels punches the
single hole. -/
theorem dithering_spec_witness :
    applyDithering 2 1 1 (fun _ _ => 0) = [[1]] := by
  have h := (dithering_spec 2 (Or.inl rfl) 1 1 (fun _ _ => 0)).2.2.2
  rw [h]
  have hp : ditherSpec 2 1 1
      (fun y x => (((fun (_ _ : Nat) => (0 : Nat)) y x : ℚ)) / 255) 0 0 = 0 := by
    rw [ditherSpec]
    rw [show List.range (1 * 1) = [0] from rfl]
    rw [List.foldl_cons, List.foldl_nil]
    rw [show (0 : Nat) / 1 = 0 from rfl, show (0 : Nat) % 1 = 0 from rfl]
    rw [ditherStep]
    norm_num [upd, goRound]
  rw [show List.range 1 = [0] from rfl]
  simp only [List.map_cons, List.map_nil]
  rw [hp]
  rw [if_pos (by norm_num)]

end Loom
